import Mathlib

/-!
Shallow embedding of the Rider zoned ride-hailing system
(src/main.py, src/server/models.py, src/server/scheduler.py)
and verification of its specification's claims.

Modelling conventions:
* timestamps are natural numbers counting minutes since an epoch whose
  day 0 is a Monday (so the weekday of a day number `d` is `d % 7` with
  0 = mon, matching python's `datetime.weekday()`);
* a calendar date is a natural number of days since that epoch,
  `dateOf dt = dt / 1440`, `combine d t = d * 1440 + t`;
* database tables are lists of rows; SQLAlchemy `query(...).first()`
  on a unique primary key is `List.find?`; `order_by(x).first()` is a
  stable minimum over the filtered rows;
* JSON-encoded id lists (`booking_ride_ids`, `client_ids`) are `List Nat`.
-/

namespace Rider

/-- Day-of-epoch of a timestamp in minutes (python `datetime.date()`). -/
def dateOf (dt : Nat) : Nat := dt / 1440

/-- python `datetime.combine(d, t)`: timestamp of minute `t` on day `d`. -/
def combine (d t : Nat) : Nat := d * 1440 + t

/-- models.DriverStatus -/
inductive DriverStatus
  | available
  | busy
  deriving DecidableEq, Repr

/-- models.RideStatus -/
inductive RideStatus
  | waiting
  | assigned
  | completed
  deriving DecidableEq, Repr

/-- models.BookingStatus -/
inductive BookingStatus
  | active
  | cancelled
  | paused
  deriving DecidableEq, Repr

/-- models.PoolOfferStatus (`open` is a Lean keyword, hence `open_`). -/
inductive PoolOfferStatus
  | open_
  | filled
  | expired
  | cancelled
  deriving DecidableEq, Repr

/-- models.Driver -/
structure Driver where
  id : Nat
  current_zone : Int
  status : DriverStatus
  reserved_booking_id : Option Nat
  reserved_until : Option Nat
  deriving DecidableEq, Repr

/-- models.Ride -/
structure Ride where
  id : Nat
  client_id : Nat
  driver_id : Option Nat
  booking_id : Option Nat
  start_zone : Int
  drop_zone : Int
  is_priority : Nat
  status : RideStatus
  requested_at : Nat
  deriving DecidableEq, Repr

/-- models.Booking (scheduler.py reads an optional `end_date`). -/
structure Booking where
  id : Nat
  client_id : Nat
  start_zone : Int
  drop_zone : Int
  days_of_week : String
  time_of_day : Nat
  start_date : Nat
  end_date : Option Nat
  ride_mode : String
  status : BookingStatus
  deriving DecidableEq, Repr

/-- models.BookingRide: one concrete occurrence of a recurring booking. -/
structure BookingRide where
  id : Nat
  booking_id : Nat
  ride_id : Option Nat
  scheduled_for : Nat
  status : RideStatus
  deriving DecidableEq, Repr

/-- models.PoolOffer -/
structure PoolOffer where
  id : Nat
  booking_ride_ids : List Nat
  start_zone : Int
  drop_zone : Int
  scheduled_for : Nat
  status : PoolOfferStatus
  deriving DecidableEq, Repr

/-- models.PooledRide -/
structure PooledRide where
  id : Nat
  client_ids : List Nat
  booking_ride_ids : Option (List Nat)
  driver_id : Option Nat
  start_zone : Int
  drop_zone : Int
  is_priority : Nat
  status : RideStatus
  deriving DecidableEq, Repr

/-- The durable store: every table of server/models.py as a list of rows. -/
structure DB where
  rides : List Ride
  drivers : List Driver
  bookings : List Booking
  booking_rides : List BookingRide
  pool_offers : List PoolOffer
  pooled_rides : List PooledRide
  deriving DecidableEq, Repr

/-- `query(Driver).filter(Driver.id == did).first()` -/
def findDriver (db : DB) (did : Nat) : Option Driver :=
  db.drivers.find? (fun d => d.id == did)

/-- `query(Ride).filter(Ride.id == rid).first()` -/
def findRide (db : DB) (rid : Nat) : Option Ride :=
  db.rides.find? (fun r => r.id == rid)

/-- Point update of one ride row (ORM attribute assignment + commit). -/
def updateRide (db : DB) (rid : Nat) (f : Ride → Ride) : DB :=
  { db with rides := db.rides.map (fun r => if r.id == rid then f r else r) }

/-- Point update of one driver row (ORM attribute assignment + commit). -/
def updateDriver (db : DB) (did : Nat) (f : Driver → Driver) : DB :=
  { db with drivers := db.drivers.map (fun d => if d.id == did then f d else d) }

/-- Waiting rides with `is_priority == 1` (main.py line 114). -/
def waitingPriority (db : DB) : List Ride :=
  db.rides.filter (fun r => decide (r.status = RideStatus.waiting) && r.is_priority == 1)

/-- Waiting rides with `is_priority == 0` (main.py line 130). -/
def waitingNormal (db : DB) : List Ride :=
  db.rides.filter (fun r => decide (r.status = RideStatus.waiting) && r.is_priority == 0)

/-- `order_by(Ride.requested_at).first()`: stable minimum by request time. -/
def oldestBy : List Ride → Option Ride
  | [] => none
  | r :: rs =>
    match oldestBy rs with
    | none => some r
    | some b => if b.requested_at < r.requested_at then some b else some r

/-- Outcome of the `accept_ride` action, one constructor per exit of
main.py lines 92-160 (the two ordering errors carry the blocking ride id
that the error message names). -/
inductive AcceptResult
  | ok
  | rideInvalid
  | driverUnavailable
  | priorityFirst (blocking_id : Nat)
  | normalFirst (blocking_id : Nat)
  deriving DecidableEq, Repr

/-- The committed writes of a successful accept (main.py lines 141-145). -/
def assignRide (db : DB) (driver_id ride_id : Nat) : DB :=
  updateDriver
    (updateRide db ride_id
      (fun r => { r with driver_id := some driver_id, status := RideStatus.assigned }))
    driver_id (fun d => { d with status := DriverStatus.busy })

/-- main.py lines 92-163: the `accept_ride` driver action. -/
def accept_ride (db : DB) (driver_id ride_id : Nat) : AcceptResult × DB :=
  match db.rides.find? (fun r => r.id == ride_id && decide (r.status = RideStatus.waiting)) with
  | none => (AcceptResult.rideInvalid, db)
  | some ride =>
    match findDriver db driver_id with
    | none => (AcceptResult.driverUnavailable, db)
    | some driver =>
      if driver.status ≠ DriverStatus.available then (AcceptResult.driverUnavailable, db)
      else
        match oldestBy (waitingPriority db) with
        | some op =>
          if ride.id ≠ op.id then (AcceptResult.priorityFirst op.id, db)
          else (AcceptResult.ok, assignRide db driver_id ride_id)
        | none =>
          if ride.is_priority = 0 then
            match oldestBy (waitingNormal db) with
            | some on_ =>
              if on_.id ≠ ride.id then (AcceptResult.normalFirst on_.id, db)
              else (AcceptResult.ok, assignRide db driver_id ride_id)
            | none => (AcceptResult.ok, assignRide db driver_id ride_id)
          else (AcceptResult.ok, assignRide db driver_id ride_id)

/-- Outcome of the `complete_ride` action (main.py lines 166-193). -/
inductive CompleteResult
  | ok
  | notFound
  deriving DecidableEq, Repr

/-- The committed writes of a successful complete (main.py lines 177-183):
ride Completed; driver Available, relocated to the drop zone, reservation
metadata cleared. -/
def completionWrites (db : DB) (driver_id ride_id : Nat) (dz : Int) : DB :=
  updateDriver
    (updateRide db ride_id (fun r => { r with status := RideStatus.completed }))
    driver_id
    (fun d => { d with status := DriverStatus.available, current_zone := dz, reserved_booking_id := none, reserved_until := none })

/-- main.py lines 166-193: the `complete_ride` driver action.  The ride is
fetched by `(id == ride_id, driver_id == driver_id)`; its status is not
inspected. -/
def complete_ride (db : DB) (driver_id ride_id : Nat) : CompleteResult × DB :=
  match db.rides.find? (fun r => r.id == ride_id && r.driver_id == some driver_id) with
  | none => (CompleteResult.notFound, db)
  | some ride =>
    match findDriver db driver_id with
    | none => (CompleteResult.notFound, db)
    | some _ => (CompleteResult.ok, completionWrites db driver_id ride_id ride.drop_zone)

/-- Autoincrement primary key for the rides table. -/
def nextRideId (db : DB) : Nat := (db.rides.map Ride.id).foldl max 0 + 1

/-- main.py lines 39-67: rider `request_ride` action; `now` is the
`requested_at` timestamp the store stamps on the new row. -/
def request_ride (db : DB) (rider_id : Nat) (sz dz : Int) (prio : Bool) (now : Nat) : DB :=
  { db with rides := db.rides ++
      [{ id := nextRideId db, client_id := rider_id, driver_id := none,
         booking_id := none, start_zone := sz, drop_zone := dz,
         is_priority := if prio then 1 else 0, status := RideStatus.waiting,
         requested_at := now }] }

/-- main.py lines 241-250: on driver disconnect the handler runs
an UPDATE that sets status to available; only the status column is written. -/
def driver_disconnect (db : DB) (driver_id : Nat) : DB :=
  { db with drivers := db.drivers.map (fun d =>
      if d.id == driver_id then { d with status := DriverStatus.available } else d) }

/-! scheduler.py configuration constants (times in minutes) -/

/-- scheduler.py LOOKAHEAD_DAYS -/
def LOOKAHEAD_DAYS : Nat := 7

/-- scheduler.py BOOKING_LEAD_MINUTES -/
def BOOKING_LEAD_MINUTES : Nat := 20

/-- scheduler.py MIN_POOL_CANDIDATES -/
def MIN_POOL_CANDIDATES : Nat := 2

/-- scheduler.py DRIVER_RESERVATION_BUFFER_MINUTES -/
def DRIVER_RESERVATION_BUFFER_MINUTES : Nat := 15

/-- Split a character list at commas (python `str.split(",")`). -/
def splitComma : List Char → List Char → List (List Char)
  | [], cur => [cur.reverse]
  | c :: cs, cur =>
    if c = ',' then cur.reverse :: splitComma cs [] else splitComma cs (c :: cur)

/-- python `str.strip()` whitespace test for the characters we model. -/
def isSpaceChar (c : Char) : Bool :=
  c = ' ' || c = '\t' || c = '\n' || c = '\r'

/-- python `str.strip()`. -/
def stripChars (cs : List Char) : List Char :=
  ((cs.dropWhile isSpaceChar).reverse.dropWhile isSpaceChar).reverse

/-- python `str.lower()` on one ASCII character. -/
def lowerChar (c : Char) : Char :=
  if 'A' ≤ c ∧ c ≤ 'Z' then Char.ofNat (c.toNat + 32) else c

/-- scheduler.py lines 37-39: `parse_days`, the set of nonempty
stripped lowercased comma-separated day tokens. -/
def parse_days (s : String) : List String :=
  ((splitComma s.data []).map
      (fun cs => String.mk ((stripChars cs).map lowerChar))).filter
    (fun t => t ≠ "")

/-- scheduler.py lines 42-44: `weekday_token` (day 0 of the epoch is a
Monday, so python's `weekday()` is `d % 7`). -/
def weekday_token (d : Nat) : String :=
  (["mon", "tue", "wed", "thu", "fri", "sat", "sun"]).getD (d % 7) ""

/-- The calendar dates the generation loop of
`create_booking_rides_for_lookahead` visits for booking `b` (scheduler.py
lines 66-70, 87): day counter starting at `max(b.start_date, now.date())`,
running while `d <= (now + lookahead).date()` and `d <= b.end_date` when an
end date is set. -/
def genDates (now : Nat) (b : Booking) : List Nat :=
  let start := max b.start_date (dateOf now)
  let last := dateOf (now + LOOKAHEAD_DAYS * 1440)
  let lastEff := match b.end_date with
    | none => last
    | some e => min last e
  if start ≤ lastEff then (List.range (lastEff + 1 - start)).map (fun i => start + i)
  else []

/-- `query(BookingRide).filter(booking_id == bid, scheduled_for == sched)`
existence check (scheduler.py lines 75-78). -/
def hasBR (brs : List BookingRide) (bid sched : Nat) : Bool :=
  brs.any (fun br => br.booking_id == bid && br.scheduled_for == sched)

/-- Autoincrement primary key for the booking_rides table. -/
def nextBRId (brs : List BookingRide) : Nat := (brs.map BookingRide.id).foldl max 0 + 1

/-- Body of the generation loop for one candidate date (scheduler.py
lines 71-86): insert a waiting occurrence when the weekday token is in the
booking's day set, the timestamp is strictly in the future and no
occurrence for the `(booking, scheduledFor)` pair exists. -/
def genStep (now : Nat) (b : Booking) (brs : List BookingRide) (d : Nat) : List BookingRide :=
  if weekday_token d ∈ parse_days b.days_of_week ∧ now < combine d b.time_of_day ∧
      hasBR brs b.id (combine d b.time_of_day) = false then
    brs ++ [{ id := nextBRId brs, booking_id := b.id, ride_id := none,
              scheduled_for := combine d b.time_of_day, status := RideStatus.waiting }]
  else brs

/-- Generation for a single booking: fold of `genStep` over its dates. -/
def processBooking (now : Nat) (brs : List BookingRide) (b : Booking) : List BookingRide :=
  (genDates now b).foldl (genStep now b) brs

/-- scheduler.py lines 50-98: `create_booking_rides_for_lookahead`,
Phase A of the sweep, over every Active booking. -/
def create_booking_rides_for_lookahead (now : Nat) (db : DB) : DB :=
  let active := db.bookings.filter (fun b => decide (b.status = BookingStatus.active))
  { db with booking_rides := active.foldl (processBooking now) db.booking_rides }

/-- Grouping key of the pool sweep: `(scheduled_for, start_zone, drop_zone)`
(scheduler.py line 112; the iso string of a datetime is injective, so the
timestamp itself serves). -/
abbrev PoolKey := Nat × Int × Int

/-- Key of a candidate occurrence, `none` when its booking row is missing
(scheduler.py lines 108-113). -/
def keyOf (bookings : List Booking) (br : BookingRide) : Option PoolKey :=
  (bookings.find? (fun bk => bk.id == br.booking_id)).map
    (fun bk => (br.scheduled_for, bk.start_zone, bk.drop_zone))

/-- Keys in order of first appearance (python dict insertion order). -/
def firstOccur (l : List PoolKey) : List PoolKey :=
  l.foldl (fun acc k => if k ∈ acc then acc else acc ++ [k]) []

/-- The members of a key's group, in candidate order. -/
def groupMembers (bookings : List Booking) (cands : List BookingRide) (k : PoolKey) :
    List BookingRide :=
  cands.filter (fun br => decide (keyOf bookings br = some k))

/-- Autoincrement primary key for the pool_offers table. -/
def nextOfferId (offers : List PoolOffer) : Nat := (offers.map PoolOffer.id).foldl max 0 + 1

/-- The open-offer predicate of the idempotent-spawn check
(scheduler.py lines 121-126). -/
def offerMatches (k : PoolKey) (o : PoolOffer) : Bool :=
  decide (o.scheduled_for = k.1) && decide (o.start_zone = k.2.1) &&
    decide (o.drop_zone = k.2.2) && decide (o.status = PoolOfferStatus.open_)

/-- Processing of one key group (scheduler.py lines 116-141): spawn one
Open offer referencing the group's occurrence ids when the group reaches
the threshold and no Open offer with the same key exists. -/
def offerStepKey (bookings : List Booking) (cands : List BookingRide)
    (offers : List PoolOffer) (k : PoolKey) : List PoolOffer :=
  let members := groupMembers bookings cands k
  if MIN_POOL_CANDIDATES ≤ members.length then
    if (offers.find? (offerMatches k)).isSome then offers
    else offers ++ [{ id := nextOfferId offers, booking_ride_ids := members.map BookingRide.id,
                      start_zone := k.2.1, drop_zone := k.2.2, scheduled_for := k.1,
                      status := PoolOfferStatus.open_ }]
  else offers

/-- The distinct group keys of a candidate list, in python dict insertion
order (candidates whose booking row is missing are dropped). -/
def candidateKeys (bookings : List Booking) (cands : List BookingRide) : List PoolKey :=
  firstOccur (cands.filterMap (keyOf bookings))

/-- scheduler.py lines 101-149: `create_pool_offers_from_candidates`. -/
def create_pool_offers_from_candidates (bookings : List Booking)
    (offers : List PoolOffer) (cands : List BookingRide) : List PoolOffer :=
  (candidateKeys bookings cands).foldl (offerStepKey bookings cands) offers

/-- The driver query of the reservation step (scheduler.py lines 168-172):
available, in the booking's start zone, holding no reservation. -/
def reservableDriver (start_zone : Int) (d : Driver) : Bool :=
  decide (d.status = DriverStatus.available) && decide (d.current_zone = start_zone) &&
    decide (d.reserved_booking_id = none)

/-- The committed writes of one successful reservation (scheduler.py
lines 178-198): reserve and Busy the driver, add the pre-assigned Ride,
link and assign the occurrence.  `now` is the store timestamp stamped on
the created ride row. -/
def reserveWrites (now : Nat) (db : DB) (br : BookingRide) (booking : Booking)
    (driver : Driver) : DB :=
  let rid := nextRideId db
  let ride : Ride :=
    { id := rid, client_id := booking.client_id, driver_id := some driver.id,
      booking_id := some booking.id, start_zone := booking.start_zone,
      drop_zone := booking.drop_zone, is_priority := 1,
      status := RideStatus.assigned, requested_at := now }
  let db1 := updateDriver db driver.id (fun d =>
    { d with reserved_booking_id := some booking.id, reserved_until := some (br.scheduled_for + DRIVER_RESERVATION_BUFFER_MINUTES), status := DriverStatus.busy })
  let db2 := { db1 with rides := db1.rides ++ [ride] }
  { db2 with booking_rides := db2.booking_rides.map (fun b =>
      if b.id == br.id then { b with ride_id := some rid, status := RideStatus.assigned }
      else b) }

/-- One iteration of `attempt_reservations_for_candidates`
(scheduler.py lines 158-201). -/
def reserveOne (now : Nat) (db : DB) (br : BookingRide) : DB :=
  if br.ride_id ≠ none ∨ br.status ≠ RideStatus.waiting then db
  else
    match db.bookings.find? (fun bk => bk.id == br.booking_id) with
    | none => db
    | some booking =>
      match db.drivers.find? (reservableDriver booking.start_zone) with
      | none => db
      | some driver => reserveWrites now db br booking driver

/-- scheduler.py lines 152-212: `attempt_reservations_for_candidates`. -/
def attempt_reservations_for_candidates (now : Nat) (db : DB) (cands : List BookingRide) : DB :=
  cands.foldl (reserveOne now) db

/-- The candidate query of the sweep (scheduler.py lines 228-234):
occurrences scheduled inside `[now, now + lead]` and still waiting. -/
def sweepCandidates (now : Nat) (db : DB) : List BookingRide :=
  db.booking_rides.filter (fun br =>
    decide (now ≤ br.scheduled_for) && decide (br.scheduled_for ≤ now + BOOKING_LEAD_MINUTES) &&
      decide (br.status = RideStatus.waiting))

/-- scheduler.py lines 215-251: `booking_reservation_sweep`, Phase B —
pool offers first, then driver reservations, over the same candidates. -/
def booking_reservation_sweep (now : Nat) (db : DB) : DB :=
  let cands := sweepCandidates now db
  if cands.isEmpty then db
  else
    let db1 := { db with pool_offers :=
      create_pool_offers_from_candidates db.bookings db.pool_offers cands }
    attempt_reservations_for_candidates now db1 cands

/-- Autoincrement primary key for the pooled_rides table. -/
def nextPooledId (db : DB) : Nat := (db.pooled_rides.map PooledRide.id).foldl max 0 + 1

/-- The candidate participant list of `accept_pool_offer`
(main.py lines 412-425): for each referenced occurrence still waiting
whose booking row exists, the pair (owning client, occurrence id); then
the accepting client with no occurrence, unless already present. -/
def poolCandidates (db : DB) (offer : PoolOffer) (client_id : Nat) :
    List (Nat × Option Nat) :=
  let fromOccs := offer.booking_ride_ids.foldl (fun acc br_id =>
    match db.booking_rides.find? (fun br => br.id == br_id) with
    | none => acc
    | some br =>
      if br.status = RideStatus.waiting then
        match db.bookings.find? (fun bk => bk.id == br.booking_id) with
        | none => acc
        | some bk => acc ++ [(bk.client_id, some br.id)]
      else acc) []
  if fromOccs.any (fun c => c.1 == client_id) then fromOccs
  else fromOccs ++ [(client_id, none)]

/-- Outcome of `accept_pool_offer` (main.py lines 400-449). -/
inductive PoolAcceptResult
  | ok (pr : PooledRide)
  | offerNotFound
  | notEnough
  deriving DecidableEq, Repr

/-- The PooledRide materialized when a pool offer fills
(main.py lines 427-437). -/
def pooledFromOffer (db : DB) (offer : PoolOffer) (client_id : Nat) : PooledRide :=
  let candidates := poolCandidates db offer client_id
  let booking_ids := candidates.filterMap Prod.snd
  { id := nextPooledId db, client_ids := candidates.map Prod.fst,
    booking_ride_ids := if booking_ids = [] then none else some booking_ids,
    driver_id := none, start_zone := offer.start_zone, drop_zone := offer.drop_zone,
    is_priority := 1, status := RideStatus.waiting }

/-- The committed writes when a pool offer fills (main.py lines 438-446):
add the PooledRide, assign the referenced occurrences, mark the offer
Filled. -/
def fillWrites (db : DB) (offer : PoolOffer) (client_id : Nat) : DB :=
  let booking_ids := (poolCandidates db offer client_id).filterMap Prod.snd
  { db with
    pooled_rides := db.pooled_rides ++ [pooledFromOffer db offer client_id],
    booking_rides := db.booking_rides.map (fun br =>
      if br.id ∈ booking_ids then { br with status := RideStatus.assigned } else br),
    pool_offers := db.pool_offers.map (fun o =>
      if o.id == offer.id then { o with status := PoolOfferStatus.filled } else o) }

/-- main.py lines 400-449: the pooling accept endpoint. -/
def accept_pool_offer (db : DB) (offer_id client_id : Nat) : PoolAcceptResult × DB :=
  match db.pool_offers.find? (fun o => o.id == offer_id && decide (o.status = PoolOfferStatus.open_)) with
  | none => (PoolAcceptResult.offerNotFound, db)
  | some offer =>
    if MIN_POOL_CANDIDATES ≤ (poolCandidates db offer client_id).length then
      (PoolAcceptResult.ok (pooledFromOffer db offer client_id), fillWrites db offer client_id)
    else (PoolAcceptResult.notEnough, db)

/-! Well-formedness of the store: primary-key uniqueness and the 0/1
encoding of the priority flag (models.py stores it "as 1/0"). -/

/-- Primary-key uniqueness of the rides table. -/
def RideIdsUnique (db : DB) : Prop := db.rides.Pairwise (fun a b => a.id ≠ b.id)

/-- Primary-key uniqueness of the drivers table. -/
def DriverIdsUnique (db : DB) : Prop := db.drivers.Pairwise (fun a b => a.id ≠ b.id)

/-- Primary-key uniqueness of the booking_rides table. -/
def BRIdsUnique (db : DB) : Prop := db.booking_rides.Pairwise (fun a b => a.id ≠ b.id)

/-- Distinct request timestamps: first-come-first-served order is strict. -/
def ReqTimesDistinct (db : DB) : Prop :=
  db.rides.Pairwise (fun a b => a.requested_at ≠ b.requested_at)

/-- The priority flag column stores 0 or 1. -/
def PriorityFlags (db : DB) : Prop := ∀ r ∈ db.rides, r.is_priority = 0 ∨ r.is_priority = 1

/-! Generic list helpers. -/

theorem init_le_foldl_max (l : List Nat) (a : Nat) : a ≤ l.foldl max a := by
  induction l generalizing a with
  | nil => exact Nat.le_refl a
  | cons h t ih => exact Nat.le_trans (Nat.le_max_left a h) (ih (max a h))

theorem mem_le_foldl_max (l : List Nat) (a : Nat) : ∀ x ∈ l, x ≤ l.foldl max a := by
  induction l generalizing a with
  | nil => intro x hx; cases hx
  | cons h t ih =>
    intro x hx
    rcases List.mem_cons.mp hx with rfl | hx
    · exact Nat.le_trans (Nat.le_max_right a x) (init_le_foldl_max t (max a x))
    · exact ih (max a h) x hx

theorem find?_eq_some_of_unique {α} (p : α → Bool) (l : List α) (a : α)
    (ha : a ∈ l) (hpa : p a = true) (huniq : ∀ x ∈ l, p x = true → x = a) :
    l.find? p = some a := by
  induction l with
  | nil => cases ha
  | cons h t ih =>
    by_cases hph : p h = true
    · rw [List.find?_cons_of_pos _ hph, huniq h (List.mem_cons_self h t) hph]
    · rw [List.find?_cons_of_neg _ hph]
      rcases List.mem_cons.mp ha with rfl | hat
      · exact absurd hpa hph
      · exact ih hat (fun x hx hpx => huniq x (List.mem_cons_of_mem h hx) hpx)

theorem pairwise_ne_eq {α} {f : α → Nat} {l : List α} (h : l.Pairwise (fun a b => f a ≠ f b))
    {x y : α} (hx : x ∈ l) (hy : y ∈ l) (hf : f x = f y) : x = y := by
  by_contra hne
  have hsym : Symmetric (fun a b : α => f a ≠ f b) := fun a b hab e => hab e.symm
  exact (h.forall hsym hx hy hne) hf

/-! C4 — the per-ride decline set.  src/ holds no ride-decline code at all:
main.py handles only accept_ride, complete_ride and accept_pooled on the
driver socket, and the pooling decline endpoint explicitly persists nothing
("For simplicity we do not persist declines in this demo").  The decline
set and the per-driver queue view are therefore modelled from the spec. -/

/-- Modelled from the spec: the Ride Queue with its decline set — spec
sections 4.1-4.2 ("records (ride, driver) in the decline set").  This
state is missing from src/; only the spec describes it. -/
structure QueueState where
  rides : List Ride
  declines : List (Nat × Nat)
  deriving DecidableEq, Repr

/-- Modelled from the spec: the Decline transition — "records
(ride, driver) in the decline set", no other state change. -/
def decline_ride (st : QueueState) (driver_id ride_id : Nat) : QueueState :=
  { st with declines := st.declines ++ [(ride_id, driver_id)] }

/-- Modelled from the spec: the Waiting rides visible to a driver — those
not declined by that driver ("filter out rides declined by that driver"). -/
def visibleTo (st : QueueState) (driver_id : Nat) : List Ride :=
  st.rides.filter (fun r => decide (r.status = RideStatus.waiting) &&
    !(st.declines.any (fun p => p.1 == r.id && p.2 == driver_id)))

/-- Modelled from the spec: selection "by key (priority descending,
requestedAt ascending)", stable on ties. -/
def specTop : List Ride → Option Ride
  | [] => none
  | r :: rs =>
    match specTop rs with
    | none => some r
    | some b =>
      if r.is_priority < b.is_priority ∨
          (r.is_priority = b.is_priority ∧ b.requested_at < r.requested_at) then some b
      else some r

/-- Modelled from the spec: `nextFor(driverId)` of spec section 4.1. -/
def nextFor (st : QueueState) (driver_id : Nat) : Option Ride :=
  specTop (visibleTo st driver_id)

/-- C4: declining a Waiting ride records the (ride, driver) pair in the
decline set and changes nothing else: the rides table is untouched, every
other driver's visible queue and next ride are unchanged, and the
declining driver's own view merely loses that one ride. -/
theorem decline_ride_frame (st : QueueState) (driver_id ride_id : Nat) :
    (decline_ride st driver_id ride_id).rides = st.rides ∧
    (decline_ride st driver_id ride_id).declines = st.declines ++ [(ride_id, driver_id)] ∧
    (∀ d', d' ≠ driver_id →
      visibleTo (decline_ride st driver_id ride_id) d' = visibleTo st d' ∧
      nextFor (decline_ride st driver_id ride_id) d' = nextFor st d') ∧
    visibleTo (decline_ride st driver_id ride_id) driver_id =
      (visibleTo st driver_id).filter (fun r => !(r.id == ride_id)) := by
  refine ⟨rfl, rfl, ?_, ?_⟩
  · intro d' hd'
    have hvis : visibleTo (decline_ride st driver_id ride_id) d' = visibleTo st d' := by
      apply List.filter_congr
      intro r _
      simp only [decline_ride, List.any_append, List.any_cons, List.any_nil]
      have : (driver_id == d') = false := by
        simp [beq_iff_eq]; exact fun e => hd' e.symm
      simp [this]
    exact ⟨hvis, by unfold nextFor; rw [hvis]⟩
  · unfold visibleTo decline_ride
    rw [List.filter_filter]
    apply List.filter_congr
    intro r _
    simp only [List.any_append, List.any_cons, List.any_nil]
    by_cases hw : r.status = RideStatus.waiting
    · by_cases hid : ride_id = r.id
      · subst hid
        simp [hw]
      · have h1 : (ride_id == r.id) = false := by simp [beq_iff_eq, hid]
        have h2 : (r.id == ride_id) = false := by
          simp [beq_iff_eq]; exact fun e => hid e.symm
        simp [hw, h1, h2]
    · simp [hw]

/-- The queue of the C4 witness: one waiting ride, no declines yet. -/
def c4st : QueueState :=
  { rides := [{ id := 5, client_id := 1, driver_id := none, booking_id := none,
                start_zone := 1, drop_zone := 2, is_priority := 0,
                status := RideStatus.waiting, requested_at := 3 }],
    declines := [] }

/-- C4 witness: a concrete decline by driver 2 leaves driver 1's view
intact and removes exactly the declined ride from driver 2's view. -/
theorem decline_ride_frame_witness :
    visibleTo (decline_ride c4st 2 5) 1 = visibleTo c4st 1 ∧
    visibleTo (decline_ride c4st 2 5) 2 =
      (visibleTo c4st 2).filter (fun r => !(r.id == 5)) := by
  exact ⟨((decline_ride_frame c4st 2 5).2.2.1 1 (by decide)).1,
    (decline_ride_frame c4st 2 5).2.2.2⟩

/-! C9 — driver disconnect. -/

/-- A Busy driver holding a reservation, for the C9 counterexample. -/
def c9driver : Driver :=
  { id := 1, current_zone := 3, status := DriverStatus.busy,
    reserved_booking_id := some 7, reserved_until := some 100 }

/-- A store containing only `c9driver`. -/
def c9db : DB :=
  { rides := [], drivers := [c9driver], bookings := [], booking_rides := [],
    pool_offers := [], pooled_rides := [] }

/-- C9 counterexample: the disconnect handler returns the driver to
Available but leaves reservedBookingId and reservedUntil set — the
reservation metadata is not cleared, contrary to the claim. -/
theorem disconnect_keeps_reservation :
    (driver_disconnect c9db 1).drivers.map Driver.status = [DriverStatus.available] ∧
    (driver_disconnect c9db 1).drivers.map Driver.reserved_booking_id = [some 7] ∧
    (driver_disconnect c9db 1).drivers.map Driver.reserved_until = [some 100] := by
  decide

/-- C9 (amended): on disconnect the handler sets the driver's status to
Available and writes nothing else — the driver's reservation metadata
(reservedBookingId, reservedUntil) and zone survive, all other rows are
untouched. -/
theorem driver_disconnect_spec (db : DB) (did : Nat) :
    (driver_disconnect db did).rides = db.rides ∧
    (driver_disconnect db did).bookings = db.bookings ∧
    (driver_disconnect db did).booking_rides = db.booking_rides ∧
    (driver_disconnect db did).pool_offers = db.pool_offers ∧
    (driver_disconnect db did).pooled_rides = db.pooled_rides ∧
    ∀ d ∈ db.drivers,
      (d.id ≠ did → d ∈ (driver_disconnect db did).drivers) ∧
      (d.id = did → ∃ d' ∈ (driver_disconnect db did).drivers,
        d'.id = d.id ∧ d'.status = DriverStatus.available ∧
        d'.reserved_booking_id = d.reserved_booking_id ∧
        d'.reserved_until = d.reserved_until ∧
        d'.current_zone = d.current_zone) := by
  refine ⟨rfl, rfl, rfl, rfl, rfl, ?_⟩
  intro d hd
  constructor
  · intro hne
    have hbeq : (d.id == did) = false := by simp [beq_iff_eq, hne]
    exact List.mem_map.mpr ⟨d, hd, by simp [hbeq]⟩
  · intro heq
    refine ⟨{ d with status := DriverStatus.available }, ?_, rfl, rfl, rfl, rfl, rfl⟩
    have hbeq : (d.id == did) = true := by simp [beq_iff_eq, heq]
    exact List.mem_map.mpr ⟨d, hd, by simp [hbeq]⟩

/-- C9 witness: the amended statement evaluated on the concrete Busy
driver holding reservation metadata. -/
theorem driver_disconnect_spec_witness :
    ∃ d' ∈ (driver_disconnect c9db 1).drivers,
      d'.id = 1 ∧ d'.status = DriverStatus.available ∧
      d'.reserved_booking_id = some 7 ∧ d'.reserved_until = some 100 ∧
      d'.current_zone = 3 := by
  obtain ⟨d', hd', hid, hst, hrb, hru, hz⟩ :=
    ((driver_disconnect_spec c9db 1).2.2.2.2.2 c9driver (by decide)).2 rfl
  exact ⟨d', hd', hid, hst, hrb, hru, hz⟩

/-! C5 — idempotence of the Generation phase. -/

theorem hasBR_append_left {brs : List BookingRide} {bid sched : Nat}
    (h : hasBR brs bid sched = true) (l : List BookingRide) :
    hasBR (brs ++ l) bid sched = true := by
  unfold hasBR at h ⊢
  rw [List.any_append, h, Bool.true_or]

theorem genStep_mono {brs : List BookingRide} {bid sched : Nat}
    (h : hasBR brs bid sched = true) (now : Nat) (b : Booking) (d : Nat) :
    hasBR (genStep now b brs d) bid sched = true := by
  unfold genStep
  split
  · exact hasBR_append_left h _
  · exact h

theorem foldl_genStep_mono (now : Nat) (b : Booking) (ds : List Nat)
    {brs : List BookingRide} {bid sched : Nat} (h : hasBR brs bid sched = true) :
    hasBR (ds.foldl (genStep now b) brs) bid sched = true := by
  induction ds generalizing brs with
  | nil => exact h
  | cons d t ih => exact ih (genStep_mono h now b d)

theorem processBooking_mono {brs : List BookingRide} {bid sched : Nat}
    (h : hasBR brs bid sched = true) (now : Nat) (b : Booking) :
    hasBR (processBooking now brs b) bid sched = true :=
  foldl_genStep_mono now b (genDates now b) h

theorem genStep_covers (now : Nat) (b : Booking) (brs : List BookingRide) (d : Nat)
    (htok : weekday_token d ∈ parse_days b.days_of_week)
    (hnow : now < combine d b.time_of_day) :
    hasBR (genStep now b brs d) b.id (combine d b.time_of_day) = true := by
  cases hex : hasBR brs b.id (combine d b.time_of_day) with
  | true => exact genStep_mono hex now b d
  | false =>
    unfold genStep
    rw [if_pos ⟨htok, hnow, hex⟩]
    unfold hasBR
    rw [List.any_append]
    simp

theorem foldl_genStep_covers (now : Nat) (b : Booking) (d : Nat)
    (htok : weekday_token d ∈ parse_days b.days_of_week)
    (hnow : now < combine d b.time_of_day) :
    ∀ (ds : List Nat) (brs : List BookingRide), d ∈ ds →
      hasBR (ds.foldl (genStep now b) brs) b.id (combine d b.time_of_day) = true := by
  intro ds
  induction ds with
  | nil => intro brs hd; cases hd
  | cons h t ih =>
    intro brs hd
    rcases List.mem_cons.mp hd with rfl | hdt
    · exact foldl_genStep_mono now b t (genStep_covers now b brs d htok hnow)
    · exact ih (genStep now b brs h) hdt

/-- All occurrences the generation loop wants for booking `b` are present. -/
def CoveredFor (now : Nat) (b : Booking) (brs : List BookingRide) : Prop :=
  ∀ d ∈ genDates now b, weekday_token d ∈ parse_days b.days_of_week →
    now < combine d b.time_of_day → hasBR brs b.id (combine d b.time_of_day) = true

theorem processBooking_covers (now : Nat) (brs : List BookingRide) (b : Booking) :
    CoveredFor now b (processBooking now brs b) :=
  fun d hd htok hnow => foldl_genStep_covers now b d htok hnow (genDates now b) brs hd

theorem coveredFor_mono {now : Nat} {b : Booking} {brs : List BookingRide}
    (h : CoveredFor now b brs) (b' : Booking) :
    CoveredFor now b (processBooking now brs b') :=
  fun d hd htok hnow => processBooking_mono (h d hd htok hnow) now b'

theorem processBooking_fixed {now : Nat} {b : Booking} {brs : List BookingRide}
    (h : CoveredFor now b brs) : processBooking now brs b = brs := by
  unfold processBooking
  have : ∀ (ds : List Nat), (∀ d ∈ ds, d ∈ genDates now b) → ds.foldl (genStep now b) brs = brs := by
    intro ds
    induction ds with
    | nil => intro _; rfl
    | cons d t ih =>
      intro hsub
      have hstep : genStep now b brs d = brs := by
        unfold genStep
        rw [if_neg]
        rintro ⟨htok, hnow, hfalse⟩
        rw [h d (hsub d (List.mem_cons_self d t)) htok hnow] at hfalse
        cases hfalse
      rw [List.foldl_cons, hstep]
      exact ih (fun x hx => hsub x (List.mem_cons_of_mem d hx))
  exact this (genDates now b) (fun d hd => hd)

theorem foldl_processBooking_mono_cov (now : Nat) {b : Booking} :
    ∀ (bs : List Booking) (brs : List BookingRide), CoveredFor now b brs →
      CoveredFor now b (bs.foldl (processBooking now) brs) := by
  intro bs
  induction bs with
  | nil => intro brs h; exact h
  | cons b' t ih => intro brs h; exact ih (processBooking now brs b') (coveredFor_mono h b')

theorem foldl_processBooking_covers (now : Nat) (b : Booking) :
    ∀ (bs : List Booking) (brs : List BookingRide), b ∈ bs →
      CoveredFor now b (bs.foldl (processBooking now) brs) := by
  intro bs
  induction bs with
  | nil => intro brs hb; cases hb
  | cons b' t ih =>
    intro brs hb
    rcases List.mem_cons.mp hb with rfl | hbt
    · exact foldl_processBooking_mono_cov now t (processBooking now brs b)
        (processBooking_covers now brs b)
    · exact ih (processBooking now brs b') hbt

theorem foldl_processBooking_fixed (now : Nat) (bs : List Booking)
    (brs : List BookingRide) (h : ∀ b ∈ bs, CoveredFor now b brs) :
    bs.foldl (processBooking now) brs = brs := by
  induction bs with
  | nil => rfl
  | cons b t ih =>
    rw [List.foldl_cons, processBooking_fixed (h b (List.mem_cons_self b t))]
    exact ih (fun b' hb' => h b' (List.mem_cons_of_mem b hb'))

/-- C5: the Generation phase is idempotent — running
`create_booking_rides_for_lookahead` twice at the same instant over the
same bookings produces exactly the state one run produces, because an
occurrence is inserted only when none exists for the
(booking, scheduledFor) pair. -/
theorem generation_idempotent (now : Nat) (db : DB) :
    create_booking_rides_for_lookahead now (create_booking_rides_for_lookahead now db) =
      create_booking_rides_for_lookahead now db := by
  show ({ create_booking_rides_for_lookahead now db with booking_rides := _ } : DB) = _
  unfold create_booking_rides_for_lookahead
  have hfix :
      (db.bookings.filter (fun b => decide (b.status = BookingStatus.active))).foldl
          (processBooking now)
          ((db.bookings.filter (fun b => decide (b.status = BookingStatus.active))).foldl
            (processBooking now) db.booking_rides) =
        (db.bookings.filter (fun b => decide (b.status = BookingStatus.active))).foldl
          (processBooking now) db.booking_rides := by
    apply foldl_processBooking_fixed
    intro b hb
    exact foldl_processBooking_covers now b _ db.booking_rides hb
  simp only [hfix]

/-! C8 — which occurrences Generation produces. -/

/-- The dates the generation loop visits are exactly the days from
`max(start_date, today)` to the lookahead horizon, capped by the booking's
end date when set. -/
theorem genDates_mem (now : Nat) (b : Booking) (d : Nat) :
    d ∈ genDates now b ↔
      max b.start_date (dateOf now) ≤ d ∧ d ≤ dateOf (now + LOOKAHEAD_DAYS * 1440) ∧
        (∀ e, b.end_date = some e → d ≤ e) := by
  unfold genDates
  cases hend : b.end_date with
  | none =>
    simp only
    split
    case isTrue hle =>
      simp only [List.mem_map, List.mem_range]
      constructor
      · rintro ⟨i, hi, rfl⟩
        refine ⟨Nat.le_add_right _ _, by omega, fun e he => by cases he⟩
      · rintro ⟨h1, h2, _⟩
        exact ⟨d - max b.start_date (dateOf now), by omega, by omega⟩
    case isFalse hle =>
      simp only [List.not_mem_nil, false_iff]
      rintro ⟨h1, h2, _⟩
      omega
  | some e =>
    simp only
    split
    case isTrue hle =>
      simp only [List.mem_map, List.mem_range]
      constructor
      · rintro ⟨i, hi, rfl⟩
        refine ⟨Nat.le_add_right _ _, by omega, fun e' he' => by
          injection he' with he''; omega⟩
      · rintro ⟨h1, h2, h3⟩
        have := h3 e rfl
        exact ⟨d - max b.start_date (dateOf now), by omega, by omega⟩
    case isFalse hle =>
      simp only [List.not_mem_nil, false_iff]
      rintro ⟨h1, h2, h3⟩
      have := h3 e rfl
      omega

theorem genStep_hasBR_iff (now : Nat) (b : Booking) (brs : List BookingRide)
    (d : Nat) (bid sched : Nat) :
    hasBR (genStep now b brs d) bid sched = true ↔
      hasBR brs bid sched = true ∨
      (bid = b.id ∧ sched = combine d b.time_of_day ∧
        weekday_token d ∈ parse_days b.days_of_week ∧ now < combine d b.time_of_day) := by
  unfold genStep
  split
  case isTrue hcond =>
    obtain ⟨htok, hnow, hex⟩ := hcond
    unfold hasBR
    rw [List.any_append]
    simp only [List.any_cons, List.any_nil, Bool.or_false, Bool.or_eq_true]
    constructor
    · rintro (h | h)
      · exact Or.inl h
      · right
        rw [Bool.and_eq_true, beq_iff_eq, beq_iff_eq] at h
        exact ⟨h.1.symm, h.2.symm, htok, hnow⟩
    · rintro (h | ⟨h1, h2, _, _⟩)
      · exact Or.inl h
      · right
        rw [Bool.and_eq_true, beq_iff_eq, beq_iff_eq]
        exact ⟨h1.symm, h2.symm⟩
  case isFalse hcond =>
    constructor
    · exact fun h => Or.inl h
    · rintro (h | ⟨h1, h2, htok, hnow⟩)
      · exact h
      · subst h1 h2
        cases hex : hasBR brs b.id (combine d b.time_of_day) with
        | true => rfl
        | false => exact absurd ⟨htok, hnow, hex⟩ hcond

theorem foldl_genStep_hasBR_iff (now : Nat) (b : Booking) :
    ∀ (ds : List Nat) (brs : List BookingRide) (bid sched : Nat),
      hasBR (ds.foldl (genStep now b) brs) bid sched = true ↔
        hasBR brs bid sched = true ∨
        (bid = b.id ∧ ∃ d ∈ ds, sched = combine d b.time_of_day ∧
          weekday_token d ∈ parse_days b.days_of_week ∧ now < combine d b.time_of_day) := by
  intro ds
  induction ds with
  | nil => intro brs bid sched; simp
  | cons d t ih =>
    intro brs bid sched
    rw [List.foldl_cons, ih (genStep now b brs d) bid sched, genStep_hasBR_iff]
    simp only [List.mem_cons]
    constructor
    · rintro ((h | ⟨h1, h2, h3, h4⟩) | ⟨h1, d', hd', h2⟩)
      · exact Or.inl h
      · exact Or.inr ⟨h1, d, Or.inl rfl, h2, h3, h4⟩
      · exact Or.inr ⟨h1, d', Or.inr hd', h2⟩
    · rintro (h | ⟨h1, d', (rfl | hd'), h2⟩)
      · exact Or.inl (Or.inl h)
      · exact Or.inl (Or.inr ⟨h1, h2⟩)
      · exact Or.inr ⟨h1, d', hd', h2⟩

theorem processBooking_hasBR_iff (now : Nat) (brs : List BookingRide) (b : Booking)
    (bid sched : Nat) :
    hasBR (processBooking now brs b) bid sched = true ↔
      hasBR brs bid sched = true ∨
      (bid = b.id ∧ ∃ d ∈ genDates now b, sched = combine d b.time_of_day ∧
        weekday_token d ∈ parse_days b.days_of_week ∧ now < combine d b.time_of_day) :=
  foldl_genStep_hasBR_iff now b (genDates now b) brs bid sched

theorem foldl_processBooking_hasBR_iff (now : Nat) :
    ∀ (bs : List Booking) (brs : List BookingRide) (bid sched : Nat),
      hasBR (bs.foldl (processBooking now) brs) bid sched = true ↔
        hasBR brs bid sched = true ∨
        ∃ b' ∈ bs, bid = b'.id ∧ ∃ d ∈ genDates now b',
          sched = combine d b'.time_of_day ∧
          weekday_token d ∈ parse_days b'.days_of_week ∧ now < combine d b'.time_of_day := by
  intro bs
  induction bs with
  | nil => intro brs bid sched; simp
  | cons b t ih =>
    intro brs bid sched
    rw [List.foldl_cons, ih (processBooking now brs b) bid sched, processBooking_hasBR_iff]
    simp only [List.mem_cons]
    constructor
    · rintro ((h | h) | ⟨b', hb', h2⟩)
      · exact Or.inl h
      · exact Or.inr ⟨b, Or.inl rfl, h⟩
      · exact Or.inr ⟨b', Or.inr hb', h2⟩
    · rintro (h | ⟨b', (rfl | hb'), h2⟩)
      · exact Or.inl (Or.inl h)
      · exact Or.inl (Or.inr h2)
      · exact Or.inr ⟨b', hb', h2⟩

/-- The Mon/Wed 08:00 booking of the C8 scenario (day tokens "mon,wed",
time of day 8:00 = 480 minutes, active from day 0, no end date). -/
def monWedBooking : Booking :=
  { id := 1, client_id := 1, start_zone := 1, drop_zone := 2,
    days_of_week := "mon,wed", time_of_day := 480, start_date := 0,
    end_date := none, ride_mode := "solo", status := BookingStatus.active }

/-- A store holding only the Mon/Wed booking and no occurrences. -/
def monWedDb : DB :=
  { rides := [], drivers := [], bookings := [monWedBooking], booking_rides := [],
    pool_offers := [], pooled_rides := [] }

/-- C8: (general part) after one Generation run, an occurrence for booking
`b` at timestamp `sched` exists iff it already existed or `b` is Active and
`sched` is the booking's time of day on a calendar date inside the
lookahead window and the booking's active date range whose weekday token
is in the booking's day set, with the timestamp strictly in the future.
(scenario part) the Mon/Wed 08:00 booking swept at minute 0 of a Monday
with the 7-day lookahead yields exactly the occurrences
Monday 08:00, Wednesday 08:00 and next-Monday 08:00. -/
theorem generation_produces_exactly (now : Nat) (db : DB) (b : Booking) (sched : Nat)
    (hb : b ∈ db.bookings) (hu : db.bookings.Pairwise (fun a b => a.id ≠ b.id)) :
    (hasBR (create_booking_rides_for_lookahead now db).booking_rides b.id sched = true ↔
      hasBR db.booking_rides b.id sched = true ∨
      (b.status = BookingStatus.active ∧
        ∃ d, max b.start_date (dateOf now) ≤ d ∧
          d ≤ dateOf (now + LOOKAHEAD_DAYS * 1440) ∧
          (∀ e, b.end_date = some e → d ≤ e) ∧
          weekday_token d ∈ parse_days b.days_of_week ∧
          now < combine d b.time_of_day ∧ sched = combine d b.time_of_day)) ∧
    (create_booking_rides_for_lookahead 0 monWedDb).booking_rides.map
        (fun br => (br.booking_id, br.scheduled_for)) =
      [(1, 480), (1, 3360), (1, 10560)] := by
  constructor
  · unfold create_booking_rides_for_lookahead
    simp only
    rw [foldl_processBooking_hasBR_iff]
    constructor
    · rintro (h | ⟨b', hb', hid, d, hd, h2, h3, h4⟩)
      · exact Or.inl h
      · have hb'mem := (List.mem_filter.mp hb').1
        have hb'act := (List.mem_filter.mp hb').2
        have : b = b' := pairwise_ne_eq hu hb hb'mem hid
        subst this
        rw [genDates_mem] at hd
        refine Or.inr ⟨by simpa using hb'act, d, hd.1, hd.2.1, hd.2.2, h3, h4, h2⟩
    · rintro (h | ⟨hact, d, h1, h2, h3, h4, h5, h6⟩)
      · exact Or.inl h
      · right
        refine ⟨b, List.mem_filter.mpr ⟨hb, by simp [hact]⟩, rfl, d, ?_, h6, h4, h5⟩
        rw [genDates_mem]
        exact ⟨h1, h2, h3⟩
  · decide

/-- C8 witness: in the Mon/Wed store, the general characterization applied
at the concrete booking confirms the Wednesday-08:00 occurrence
(timestamp 3360) is produced and that no Tuesday-08:00 occurrence
(timestamp 1920) is. -/
theorem generation_produces_exactly_witness :
    hasBR (create_booking_rides_for_lookahead 0 monWedDb).booking_rides 1 3360 = true ∧
    hasBR (create_booking_rides_for_lookahead 0 monWedDb).booking_rides 1 1920 = false := by
  constructor
  · exact (generation_produces_exactly 0 monWedDb monWedBooking 3360 (by decide)
      (by decide)).1.mpr
      (Or.inr ⟨rfl, 2, by decide, by decide, by decide, by decide, by decide, rfl⟩)
  · cases hx : hasBR (create_booking_rides_for_lookahead 0 monWedDb).booking_rides 1 1920 with
    | false => rfl
    | true =>
      have h := (generation_produces_exactly 0 monWedDb monWedBooking 1920 (by decide)
        (by decide)).1.mp hx
      rcases h with h | ⟨_, d, h1, h2, _, h4, _, h6⟩
      · cases h
      · have ht : monWedBooking.time_of_day = 480 := rfl
        have hd : d = 1 := by
          unfold combine at h6
          rw [ht] at h6
          omega
        subst hd
        revert h4
        decide

/-! C1 — the acceptance-ordering contract. -/

theorem oldestBy_cons (r : Ride) (rs : List Ride) :
    oldestBy (r :: rs) =
      match oldestBy rs with
      | none => some r
      | some b => if b.requested_at < r.requested_at then some b else some r := rfl

theorem oldestBy_eq_none {l : List Ride} : oldestBy l = none ↔ l = [] := by
  cases l with
  | nil => simp [oldestBy]
  | cons r rs =>
    rw [oldestBy_cons]
    cases h : oldestBy rs with
    | none => simp
    | some b =>
      by_cases hlt : b.requested_at < r.requested_at
      · simp [hlt]
      · simp [hlt]

theorem oldestBy_mem {l : List Ride} {b : Ride} (h : oldestBy l = some b) : b ∈ l := by
  induction l with
  | nil => cases h
  | cons r rs ih =>
    rw [oldestBy_cons] at h
    cases h2 : oldestBy rs with
    | none =>
      rw [h2] at h
      injection h with h
      exact h ▸ List.mem_cons_self r rs
    | some c =>
      rw [h2] at h
      dsimp only at h
      by_cases hlt : c.requested_at < r.requested_at
      · rw [if_pos hlt] at h
        injection h with h
        exact List.mem_cons_of_mem r (ih (h ▸ h2))
      · rw [if_neg hlt] at h
        injection h with h
        exact h ▸ List.mem_cons_self r rs

theorem oldestBy_le' :
    ∀ (l : List Ride) (b : Ride), oldestBy l = some b →
      ∀ x ∈ l, b.requested_at ≤ x.requested_at := by
  intro l
  induction l with
  | nil => intro b h; cases h
  | cons r rs ih =>
    intro b h x hx
    rw [oldestBy_cons] at h
    cases h2 : oldestBy rs with
    | none =>
      rw [h2] at h
      injection h with h
      subst h
      rcases List.mem_cons.mp hx with rfl | hxs
      · exact Nat.le_refl _
      · rw [oldestBy_eq_none.mp h2] at hxs
        cases hxs
    | some c =>
      rw [h2] at h
      dsimp only at h
      by_cases hlt : c.requested_at < r.requested_at
      · rw [if_pos hlt] at h
        injection h with h
        subst h
        rcases List.mem_cons.mp hx with rfl | hxs
        · exact Nat.le_of_lt hlt
        · exact ih _ h2 x hxs
      · rw [if_neg hlt] at h
        injection h with h
        subst h
        rcases List.mem_cons.mp hx with rfl | hxs
        · exact Nat.le_refl _
        · exact Nat.le_trans (Nat.le_of_not_lt hlt) (ih _ h2 x hxs)

theorem oldestBy_le {l : List Ride} {b : Ride} (h : oldestBy l = some b) :
    ∀ x ∈ l, b.requested_at ≤ x.requested_at :=
  oldestBy_le' l b h

theorem oldestBy_of_ne_nil {l : List Ride} (h : l ≠ []) : ∃ b, oldestBy l = some b := by
  cases l with
  | nil => exact absurd rfl h
  | cons r rs =>
    rw [oldestBy_cons]
    cases h2 : oldestBy rs with
    | none => exact ⟨r, rfl⟩
    | some c =>
      dsimp only
      by_cases hlt : c.requested_at < r.requested_at
      · rw [if_pos hlt]
        exact ⟨c, rfl⟩
      · rw [if_neg hlt]
        exact ⟨r, rfl⟩

theorem mem_waitingPriority {db : DB} {r : Ride} :
    r ∈ waitingPriority db ↔
      r ∈ db.rides ∧ r.status = RideStatus.waiting ∧ r.is_priority = 1 := by
  simp [waitingPriority, List.mem_filter, and_assoc]

theorem mem_waitingNormal {db : DB} {r : Ride} :
    r ∈ waitingNormal db ↔
      r ∈ db.rides ∧ r.status = RideStatus.waiting ∧ r.is_priority = 0 := by
  simp [waitingNormal, List.mem_filter, and_assoc]

/-- The spec's nextFor contract: `r` is the highest-priority, then
earliest-requested, Waiting ride (spec sections 3, 4.1, 8; the decline set
never becomes nonempty in the code, so it does not appear). -/
def isTopWaiting (db : DB) (r : Ride) : Prop :=
  r ∈ db.rides ∧ r.status = RideStatus.waiting ∧
    ∀ r' ∈ db.rides, r'.status = RideStatus.waiting → r' ≠ r →
      r'.is_priority < r.is_priority ∨
        (r'.is_priority = r.is_priority ∧ r.requested_at < r'.requested_at)

/-- The driver exists and is Available. -/
def driverAvailable (db : DB) (did : Nat) : Prop :=
  ∃ dr, findDriver db did = some dr ∧ dr.status = DriverStatus.available

theorem isTopWaiting_unique {db : DB} {a b : Ride}
    (ha : isTopWaiting db a) (hb : isTopWaiting db b) : a = b := by
  by_contra hne
  have h1 := ha.2.2 b hb.1 hb.2.1 (fun e => hne e.symm)
  have h2 := hb.2.2 a ha.1 ha.2.1 hne
  omega

theorem top_of_priority {db : DB} (ht : ReqTimesDistinct db) (hp : PriorityFlags db)
    {b : Ride} (hb : oldestBy (waitingPriority db) = some b) : isTopWaiting db b := by
  have hbm := mem_waitingPriority.mp (oldestBy_mem hb)
  refine ⟨hbm.1, hbm.2.1, ?_⟩
  intro r' hr' hw' hne
  rcases hp r' hr' with h0 | h1
  · left
    rw [h0, hbm.2.2]
    exact Nat.zero_lt_one
  · right
    refine ⟨h1.trans hbm.2.2.symm, ?_⟩
    have hr'p : r' ∈ waitingPriority db := mem_waitingPriority.mpr ⟨hr', hw', h1⟩
    have hle := oldestBy_le hb r' hr'p
    have hneq : b.requested_at ≠ r'.requested_at :=
      fun e => hne (pairwise_ne_eq ht hr' hbm.1 e.symm)
    omega

theorem top_of_normal {db : DB} (ht : ReqTimesDistinct db) (hp : PriorityFlags db)
    (hnopri : waitingPriority db = []) {b : Ride}
    (hb : oldestBy (waitingNormal db) = some b) : isTopWaiting db b := by
  have hbm := mem_waitingNormal.mp (oldestBy_mem hb)
  refine ⟨hbm.1, hbm.2.1, ?_⟩
  intro r' hr' hw' hne
  rcases hp r' hr' with h0 | h1
  · right
    refine ⟨h0.trans hbm.2.2.symm, ?_⟩
    have hr'n : r' ∈ waitingNormal db := mem_waitingNormal.mpr ⟨hr', hw', h0⟩
    have hle := oldestBy_le hb r' hr'n
    have hneq : b.requested_at ≠ r'.requested_at :=
      fun e => hne (pairwise_ne_eq ht hr' hbm.1 e.symm)
    omega
  · exfalso
    have : r' ∈ waitingPriority db := mem_waitingPriority.mpr ⟨hr', hw', h1⟩
    rw [hnopri] at this
    exact List.not_mem_nil r' this

theorem find_ride_of_waiting {db : DB} (hu : RideIdsUnique db) {r : Ride} {rid : Nat}
    (hr : r ∈ db.rides) (hid : r.id = rid) (hw : r.status = RideStatus.waiting) :
    db.rides.find? (fun x => x.id == rid && decide (x.status = RideStatus.waiting)) = some r := by
  apply find?_eq_some_of_unique _ _ _ hr
  · simp [hid, hw]
  · intro x hx hpx
    rw [Bool.and_eq_true, beq_iff_eq, decide_eq_true_eq] at hpx
    exact pairwise_ne_eq hu hx hr (hpx.1.trans hid.symm)

theorem accept_ride_cases (db : DB) (did rid : Nat) :
    (accept_ride db did rid).2 = db ∨ (accept_ride db did rid).1 = AcceptResult.ok := by
  unfold accept_ride
  cases db.rides.find? (fun r => r.id == rid && decide (r.status = RideStatus.waiting)) with
  | none => exact Or.inl rfl
  | some ride =>
    dsimp only
    cases findDriver db did with
    | none => exact Or.inl rfl
    | some driver =>
      dsimp only
      by_cases h3 : driver.status ≠ DriverStatus.available
      · rw [if_pos h3]
        exact Or.inl rfl
      · rw [if_neg h3]
        cases oldestBy (waitingPriority db) with
        | some op =>
          dsimp only
          by_cases h4 : ride.id ≠ op.id
          · rw [if_pos h4]; exact Or.inl rfl
          · rw [if_neg h4]; exact Or.inr rfl
        | none =>
          dsimp only
          by_cases h5 : ride.is_priority = 0
          · rw [if_pos h5]
            cases oldestBy (waitingNormal db) with
            | some on_ =>
              dsimp only
              by_cases h6 : on_.id ≠ ride.id
              · rw [if_pos h6]; exact Or.inl rfl
              · rw [if_neg h6]; exact Or.inr rfl
            | none => exact Or.inr rfl
          · rw [if_neg h5]; exact Or.inr rfl

/-- C1: for a Waiting ride `r`, accept succeeds exactly when the driver is
Available and `r` is the highest-priority, then earliest-requested, Waiting
ride (the code persists no ride declines, so every driver's decline set is
empty and never filters anything); a driver who is not Available gets
driverUnavailable; an otherwise-valid accept of any other Waiting ride gets
an ordering error naming the ride that must be accepted first; and every
failing accept leaves the store unchanged. -/
theorem accept_ride_ordering (db : DB) (did rid : Nat) (r : Ride)
    (hu : RideIdsUnique db) (ht : ReqTimesDistinct db) (hp : PriorityFlags db)
    (hr : r ∈ db.rides) (hid : r.id = rid) (hw : r.status = RideStatus.waiting) :
    ((accept_ride db did rid).1 = AcceptResult.ok ↔
      driverAvailable db did ∧ isTopWaiting db r) ∧
    (¬ driverAvailable db did →
      (accept_ride db did rid).1 = AcceptResult.driverUnavailable) ∧
    (driverAvailable db did → ¬ isTopWaiting db r →
      ∃ b, isTopWaiting db b ∧
        ((accept_ride db did rid).1 = AcceptResult.priorityFirst b.id ∨
         (accept_ride db did rid).1 = AcceptResult.normalFirst b.id)) ∧
    (∀ d' i', (accept_ride db d' i').1 ≠ AcceptResult.ok →
      (accept_ride db d' i').2 = db) := by
  have frame : ∀ d' i', (accept_ride db d' i').1 ≠ AcceptResult.ok →
      (accept_ride db d' i').2 = db := by
    intro d' i' hne
    rcases accept_ride_cases db d' i' with h | h
    · exact h
    · exact absurd h hne
  have hfind := find_ride_of_waiting hu hr hid hw
  cases hdrv : findDriver db did with
  | none =>
    have hnav : ¬ driverAvailable db did := by
      rintro ⟨dr, hdr, _⟩
      rw [hdrv] at hdr
      cases hdr
    have hres : (accept_ride db did rid).1 = AcceptResult.driverUnavailable := by
      unfold accept_ride
      rw [hfind]
      dsimp only
      rw [hdrv]
    refine ⟨?_, fun _ => hres, fun hav => absurd hav hnav, frame⟩
    rw [hres]
    exact ⟨fun h => AcceptResult.noConfusion h, fun ⟨hav, _⟩ => absurd hav hnav⟩
  | some dr =>
    by_cases hav : dr.status = DriverStatus.available
    · have havail : driverAvailable db did := ⟨dr, hdrv, hav⟩
      cases hop : oldestBy (waitingPriority db) with
      | some op =>
        have htop := top_of_priority ht hp hop
        by_cases heq : r.id ≠ op.id
        · have hres : (accept_ride db did rid).1 = AcceptResult.priorityFirst op.id := by
            unfold accept_ride
            rw [hfind]
            dsimp only
            rw [hdrv]
            dsimp only
            rw [if_neg (fun h => h hav), hop]
            dsimp only
            rw [if_pos heq]
          have hnt : ¬ isTopWaiting db r := fun htr =>
            heq (by rw [isTopWaiting_unique htr htop])
          refine ⟨?_, fun hnav => absurd havail hnav, fun _ _ => ⟨op, htop, Or.inl hres⟩,
            frame⟩
          rw [hres]
          exact ⟨fun h => AcceptResult.noConfusion h, fun ⟨_, htr⟩ => absurd htr hnt⟩
        · have heq' : r.id = op.id := not_not.mp heq
          have hreq : r = op := pairwise_ne_eq hu hr htop.1 heq'
          have htopr : isTopWaiting db r := hreq ▸ htop
          have hres : (accept_ride db did rid).1 = AcceptResult.ok := by
            unfold accept_ride
            rw [hfind]
            dsimp only
            rw [hdrv]
            dsimp only
            rw [if_neg (fun h => h hav), hop]
            dsimp only
            rw [if_neg heq]
          refine ⟨?_, fun hnav => absurd havail hnav,
            fun _ hnt => absurd htopr hnt, frame⟩
          rw [hres]
          exact ⟨fun _ => ⟨havail, htopr⟩, fun _ => rfl⟩
      | none =>
        have hempty : waitingPriority db = [] := oldestBy_eq_none.mp hop
        have hpr : r.is_priority = 0 := by
          rcases hp r hr with h0 | h1
          · exact h0
          · exfalso
            have hm : r ∈ waitingPriority db := mem_waitingPriority.mpr ⟨hr, hw, h1⟩
            rw [hempty] at hm
            exact List.not_mem_nil r hm
        have hrn : r ∈ waitingNormal db := mem_waitingNormal.mpr ⟨hr, hw, hpr⟩
        have hnnil : waitingNormal db ≠ [] := by
          intro e
          rw [e] at hrn
          exact List.not_mem_nil r hrn
        obtain ⟨on_, hnorm⟩ := oldestBy_of_ne_nil hnnil
        have htop := top_of_normal ht hp hempty hnorm
        by_cases heq : on_.id ≠ r.id
        · have hres : (accept_ride db did rid).1 = AcceptResult.normalFirst on_.id := by
            unfold accept_ride
            rw [hfind]
            dsimp only
            rw [hdrv]
            dsimp only
            rw [if_neg (fun h => h hav), hop]
            dsimp only
            rw [if_pos hpr, hnorm]
            dsimp only
            rw [if_pos heq]
          have hnt : ¬ isTopWaiting db r := fun htr =>
            heq (by rw [isTopWaiting_unique htop htr])
          refine ⟨?_, fun hnav => absurd havail hnav, fun _ _ => ⟨on_, htop, Or.inr hres⟩,
            frame⟩
          rw [hres]
          exact ⟨fun h => AcceptResult.noConfusion h, fun ⟨_, htr⟩ => absurd htr hnt⟩
        · have heq' : on_.id = r.id := not_not.mp heq
          have hreq : on_ = r := pairwise_ne_eq hu htop.1 hr heq'
          have htopr : isTopWaiting db r := hreq ▸ htop
          have hres : (accept_ride db did rid).1 = AcceptResult.ok := by
            unfold accept_ride
            rw [hfind]
            dsimp only
            rw [hdrv]
            dsimp only
            rw [if_neg (fun h => h hav), hop]
            dsimp only
            rw [if_pos hpr, hnorm]
            dsimp only
            rw [if_neg heq]
          refine ⟨?_, fun hnav => absurd havail hnav,
            fun _ hnt => absurd htopr hnt, frame⟩
          rw [hres]
          exact ⟨fun _ => ⟨havail, htopr⟩, fun _ => rfl⟩
    · have hnav : ¬ driverAvailable db did := by
        rintro ⟨dr', hdr', hav'⟩
        rw [hdrv] at hdr'
        injection hdr' with hdr'
        exact hav (hdr' ▸ hav')
      have hres : (accept_ride db did rid).1 = AcceptResult.driverUnavailable := by
        unfold accept_ride
        rw [hfind]
        dsimp only
        rw [hdrv]
        dsimp only
        rw [if_pos hav]
      refine ⟨?_, fun _ => hres, fun havl => absurd havl hnav, frame⟩
      rw [hres]
      exact ⟨fun h => AcceptResult.noConfusion h, fun ⟨havl, _⟩ => absurd havl hnav⟩

/-- The priority ride of the C1 witness (requested later than the normal
one, yet it blocks). -/
def c1ridePriority : Ride :=
  { id := 1, client_id := 10, driver_id := none, booking_id := none,
    start_zone := 1, drop_zone := 2, is_priority := 1,
    status := RideStatus.waiting, requested_at := 10 }

/-- The normal ride of the C1 witness. -/
def c1rideNormal : Ride :=
  { id := 2, client_id := 11, driver_id := none, booking_id := none,
    start_zone := 1, drop_zone := 2, is_priority := 0,
    status := RideStatus.waiting, requested_at := 5 }

/-- The available driver of the C1 witness. -/
def c1driver : Driver :=
  { id := 1, current_zone := 1, status := DriverStatus.available,
    reserved_booking_id := none, reserved_until := none }

/-- The store of the C1 witness. -/
def c1db : DB :=
  { rides := [c1ridePriority, c1rideNormal], drivers := [c1driver],
    bookings := [], booking_rides := [], pool_offers := [], pooled_rides := [] }

/-- C1 witness: accepting the priority ride succeeds; accepting the
(older) normal ride while the priority ride waits yields the ordering
error naming the priority ride. -/
theorem accept_ride_ordering_witness :
    (accept_ride c1db 1 1).1 = AcceptResult.ok ∧
    ∃ b, isTopWaiting c1db b ∧
      ((accept_ride c1db 1 2).1 = AcceptResult.priorityFirst b.id ∨
       (accept_ride c1db 1 2).1 = AcceptResult.normalFirst b.id) := by
  constructor
  · exact (accept_ride_ordering c1db 1 1 c1ridePriority
      (by unfold RideIdsUnique; decide) (by unfold ReqTimesDistinct; decide)
      (by unfold PriorityFlags; decide) (by decide) rfl rfl).1.mpr
      ⟨⟨c1driver, by decide, rfl⟩, by unfold isTopWaiting; decide⟩
  · exact (accept_ride_ordering c1db 1 2 c1rideNormal
      (by unfold RideIdsUnique; decide) (by unfold ReqTimesDistinct; decide)
      (by unfold PriorityFlags; decide) (by decide) rfl rfl).2.2.1
      ⟨c1driver, by decide, rfl⟩ (by unfold isTopWaiting; decide)

/-! C2 — at most one assignment per ride, over arbitrary operation traces. -/

/-- The rider/driver operations the claim quantifies over. -/
inductive Op
  | request (rider_id : Nat) (sz dz : Int) (prio : Bool) (now : Nat)
  | accept (driver_id ride_id : Nat)
  | complete (driver_id ride_id : Nat)

/-- One operation against the store. -/
def applyOp (db : DB) : Op → DB
  | Op.request c s d p n => request_ride db c s d p n
  | Op.accept d r => (accept_ride db d r).2
  | Op.complete d r => (complete_ride db d r).2

/-- A whole trace of operations. -/
def runOps (db : DB) (ops : List Op) : DB := ops.foldl applyOp db

theorem nextRideId_fresh (db : DB) : ∀ r ∈ db.rides, r.id < nextRideId db := by
  intro r hr
  have : r.id ∈ db.rides.map Ride.id := List.mem_map_of_mem Ride.id hr
  have := mem_le_foldl_max (db.rides.map Ride.id) 0 r.id this
  unfold nextRideId
  omega

theorem mem_updateRide_hit {db : DB} {rid : Nat} {f : Ride → Ride} {r : Ride}
    (hr : r ∈ db.rides) (h : r.id = rid) : f r ∈ (updateRide db rid f).rides := by
  have hb : (r.id == rid) = true := by simp [beq_iff_eq, h]
  have hm := List.mem_map_of_mem (fun x => if x.id == rid then f x else x) hr
  simp only [hb, if_true] at hm
  simpa [updateRide] using hm

theorem mem_updateRide_miss {db : DB} {rid : Nat} {f : Ride → Ride} {r : Ride}
    (hr : r ∈ db.rides) (h : r.id ≠ rid) : r ∈ (updateRide db rid f).rides := by
  have hb : (r.id == rid) = false := by simp [beq_iff_eq, h]
  have hm := List.mem_map_of_mem (fun x => if x.id == rid then f x else x) hr
  simp only [hb, Bool.false_eq_true, if_false] at hm
  simpa [updateRide] using hm

theorem mem_updateDriver_hit {db : DB} {did : Nat} {f : Driver → Driver} {d : Driver}
    (hd : d ∈ db.drivers) (h : d.id = did) : f d ∈ (updateDriver db did f).drivers := by
  have hb : (d.id == did) = true := by simp [beq_iff_eq, h]
  have hm := List.mem_map_of_mem (fun x => if x.id == did then f x else x) hd
  simp only [hb, if_true] at hm
  simpa [updateDriver] using hm

theorem mem_updateDriver_miss {db : DB} {did : Nat} {f : Driver → Driver} {d : Driver}
    (hd : d ∈ db.drivers) (h : d.id ≠ did) : d ∈ (updateDriver db did f).drivers := by
  have hb : (d.id == did) = false := by simp [beq_iff_eq, h]
  have hm := List.mem_map_of_mem (fun x => if x.id == did then f x else x) hd
  simp only [hb, Bool.false_eq_true, if_false] at hm
  simpa [updateDriver] using hm

/-- Exhaustive outcome analysis of `accept_ride`: either it fails and
leaves the store unchanged, or it succeeds, commits `assignRide`, and the
accepted ride was a Waiting row with the requested id. -/
theorem accept_ride_split (db : DB) (did rid : Nat) :
    ((accept_ride db did rid).1 ≠ AcceptResult.ok ∧ (accept_ride db did rid).2 = db) ∨
    ((accept_ride db did rid).1 = AcceptResult.ok ∧
      (accept_ride db did rid).2 = assignRide db did rid ∧
      ∃ ride0 ∈ db.rides, ride0.id = rid ∧ ride0.status = RideStatus.waiting) := by
  unfold accept_ride
  cases hf : db.rides.find? (fun r => r.id == rid && decide (r.status = RideStatus.waiting)) with
  | none => exact Or.inl ⟨fun h => AcceptResult.noConfusion h, rfl⟩
  | some ride =>
    have hmem := List.mem_of_find?_eq_some hf
    have hpred := List.find?_some hf
    rw [Bool.and_eq_true, beq_iff_eq, decide_eq_true_eq] at hpred
    have hride : ride ∈ db.rides ∧ ride.id = rid ∧ ride.status = RideStatus.waiting :=
      ⟨hmem, hpred.1, hpred.2⟩
    dsimp only
    cases findDriver db did with
    | none => exact Or.inl ⟨fun h => AcceptResult.noConfusion h, rfl⟩
    | some driver =>
      dsimp only
      by_cases h3 : driver.status ≠ DriverStatus.available
      · rw [if_pos h3]
        exact Or.inl ⟨fun h => AcceptResult.noConfusion h, rfl⟩
      · rw [if_neg h3]
        cases oldestBy (waitingPriority db) with
        | some op =>
          dsimp only
          by_cases h4 : ride.id ≠ op.id
          · rw [if_pos h4]
            exact Or.inl ⟨fun h => AcceptResult.noConfusion h, rfl⟩
          · rw [if_neg h4]
            exact Or.inr ⟨rfl, rfl, ride, hride.1, hride.2.1, hride.2.2⟩
        | none =>
          dsimp only
          by_cases h5 : ride.is_priority = 0
          · rw [if_pos h5]
            cases oldestBy (waitingNormal db) with
            | some on_ =>
              dsimp only
              by_cases h6 : on_.id ≠ ride.id
              · rw [if_pos h6]
                exact Or.inl ⟨fun h => AcceptResult.noConfusion h, rfl⟩
              · rw [if_neg h6]
                exact Or.inr ⟨rfl, rfl, ride, hride.1, hride.2.1, hride.2.2⟩
            | none => exact Or.inr ⟨rfl, rfl, ride, hride.1, hride.2.1, hride.2.2⟩
          · rw [if_neg h5]
            exact Or.inr ⟨rfl, rfl, ride, hride.1, hride.2.1, hride.2.2⟩

/-- Exhaustive outcome analysis of `complete_ride`: either it fails and
leaves the store unchanged, or it succeeds on a row carrying the calling
driver's reference and commits the completion writes. -/
theorem complete_ride_split (db : DB) (did rid : Nat) :
    ((complete_ride db did rid).1 ≠ CompleteResult.ok ∧ (complete_ride db did rid).2 = db) ∨
    ((complete_ride db did rid).1 = CompleteResult.ok ∧
      ∃ ride0 ∈ db.rides, ride0.id = rid ∧ ride0.driver_id = some did ∧
        (complete_ride db did rid).2 = completionWrites db did rid ride0.drop_zone) := by
  unfold complete_ride
  cases hf : db.rides.find? (fun r => r.id == rid && r.driver_id == some did) with
  | none => exact Or.inl ⟨fun h => CompleteResult.noConfusion h, rfl⟩
  | some ride =>
    have hmem := List.mem_of_find?_eq_some hf
    have hpred := List.find?_some hf
    rw [Bool.and_eq_true, beq_iff_eq, beq_iff_eq] at hpred
    dsimp only
    cases findDriver db did with
    | none => exact Or.inl ⟨fun h => CompleteResult.noConfusion h, rfl⟩
    | some dr =>
      exact Or.inr ⟨rfl, ride, hmem, hpred.1, hpred.2, rfl⟩

theorem rideIdsUnique_updateRide (db : DB) (rid : Nat)
    (f : Ride → Ride) (hf : ∀ r, (f r).id = r.id) (hu : RideIdsUnique db) :
    RideIdsUnique (updateRide db rid f) := by
  unfold RideIdsUnique updateRide at *
  refine hu.map _ ?_
  intro a b hab
  by_cases ha : a.id == rid
  · by_cases hb : b.id == rid
    · rw [if_pos ha, if_pos hb, hf a, hf b]
      exact hab
    · rw [if_pos ha, if_neg hb, hf a]
      exact hab
  · by_cases hb : b.id == rid
    · rw [if_neg ha, if_pos hb, hf b]
      exact hab
    · rw [if_neg ha, if_neg hb]
      exact hab

theorem rideIdsUnique_applyOp (db : DB) (op : Op) (hu : RideIdsUnique db) :
    RideIdsUnique (applyOp db op) := by
  cases op with
  | request c s d p n =>
    unfold applyOp request_ride RideIdsUnique at *
    rw [List.pairwise_append]
    refine ⟨hu, List.pairwise_singleton _ _, ?_⟩
    intro a ha b hb
    rw [List.mem_singleton] at hb
    subst hb
    have := nextRideId_fresh db a ha
    simp only
    omega
  | accept d i =>
    rcases accept_ride_split db d i with ⟨_, h⟩ | ⟨_, h, _⟩
    · rw [applyOp, h]
      exact hu
    · rw [applyOp, h]
      unfold assignRide
      have h1 := rideIdsUnique_updateRide db i
        (fun r => { r with driver_id := some d, status := RideStatus.assigned })
        (fun r => rfl) hu
      exact h1
  | complete d i =>
    rcases complete_ride_split db d i with ⟨_, h⟩ | ⟨_, ride0, _, _, _, h⟩
    · rw [applyOp, h]
      exact hu
    · rw [applyOp, h]
      exact rideIdsUnique_updateRide db i
        (fun r => { r with status := RideStatus.completed }) (fun r => rfl) hu

/-- One operation never changes the driver reference of a non-Waiting ride
and never sends it back to Waiting. -/
theorem step_locks (db : DB) (op : Op) (hu : RideIdsUnique db) {r : Ride}
    (hr : r ∈ db.rides) (hs : r.status ≠ RideStatus.waiting) :
    ∃ r', r' ∈ (applyOp db op).rides ∧ r'.id = r.id ∧
      r'.driver_id = r.driver_id ∧ r'.status ≠ RideStatus.waiting := by
  cases op with
  | request c s d p n =>
    refine ⟨r, ?_, rfl, rfl, hs⟩
    unfold applyOp request_ride
    exact List.mem_append_left _ hr
  | accept d i =>
    rcases accept_ride_split db d i with ⟨_, h⟩ | ⟨_, h, ride0, hm0, hid0, hw0⟩
    · rw [applyOp, h]
      exact ⟨r, hr, rfl, rfl, hs⟩
    · rw [applyOp, h]
      have hne : r.id ≠ i := by
        intro e
        have : r = ride0 := pairwise_ne_eq hu hr hm0 (e.trans hid0.symm)
        rw [this] at hs
        exact hs hw0
      refine ⟨r, ?_, rfl, rfl, hs⟩
      unfold assignRide
      exact mem_updateRide_miss hr hne
  | complete d i =>
    rcases complete_ride_split db d i with ⟨_, h⟩ | ⟨_, ride0, hm0, hid0, hd0, h⟩
    · rw [applyOp, h]
      exact ⟨r, hr, rfl, rfl, hs⟩
    · rw [applyOp, h]
      by_cases hne : r.id = i
      · have hre : r = ride0 := pairwise_ne_eq hu hr hm0 (hne.trans hid0.symm)
        refine ⟨{ r with status := RideStatus.completed }, ?_, rfl, rfl, ?_⟩
        · exact mem_updateRide_hit hr hne
        · intro e
          cases e
      · exact ⟨r, mem_updateRide_miss hr hne, rfl, rfl, hs⟩

theorem runOps_locks (db : DB) (ops : List Op) (hu : RideIdsUnique db) {r : Ride}
    (hr : r ∈ db.rides) (hs : r.status ≠ RideStatus.waiting) :
    RideIdsUnique (runOps db ops) ∧
    ∃ r', r' ∈ (runOps db ops).rides ∧ r'.id = r.id ∧
      r'.driver_id = r.driver_id ∧ r'.status ≠ RideStatus.waiting := by
  induction ops generalizing db r with
  | nil => exact ⟨hu, r, hr, rfl, rfl, hs⟩
  | cons op t ih =>
    have hu1 := rideIdsUnique_applyOp db op hu
    obtain ⟨r1, hr1, hid1, hdr1, hs1⟩ := step_locks db op hu hr hs
    obtain ⟨hu2, r2, hr2, hid2, hdr2, hs2⟩ := ih (applyOp db op) hu1 hr1 hs1
    exact ⟨hu2, r2, hr2, hid2.trans hid1, hdr2.trans hdr1, hs2⟩

/-- Accepting a ride whose row is not Waiting fails with rideInvalid and
leaves the store unchanged. -/
theorem accept_fails_on_nonwaiting (db : DB) (hu : RideIdsUnique db) {r : Ride}
    (hr : r ∈ db.rides) (hs : r.status ≠ RideStatus.waiting) (d : Nat) :
    (accept_ride db d r.id).1 = AcceptResult.rideInvalid ∧
      (accept_ride db d r.id).2 = db := by
  have hnone : db.rides.find?
      (fun x => x.id == r.id && decide (x.status = RideStatus.waiting)) = none := by
    rw [List.find?_eq_none]
    intro x hx hpx
    rw [Bool.and_eq_true, beq_iff_eq, decide_eq_true_eq] at hpx
    have : x = r := pairwise_ne_eq hu hx hr hpx.1
    rw [this] at hpx
    exact hs hpx.2
  unfold accept_ride
  rw [hnone]
  exact ⟨rfl, rfl⟩

/-- C2: over any trace of request/accept/complete operations, a ride that
is already Assigned (or Completed) keeps exactly its driver reference and
never returns to Waiting — no reassignment ever happens — and any later
accept attempt on that ride, by any driver, is rejected with rideInvalid
and leaves the store unchanged. -/
theorem assignment_exclusive (db : DB) (ops : List Op) (r : Ride)
    (hu : RideIdsUnique db) (hr : r ∈ db.rides) (hs : r.status ≠ RideStatus.waiting) :
    (∃ r', r' ∈ (runOps db ops).rides ∧ r'.id = r.id ∧
      r'.driver_id = r.driver_id ∧ r'.status ≠ RideStatus.waiting) ∧
    (∀ d', (accept_ride (runOps db ops) d' r.id).1 = AcceptResult.rideInvalid ∧
      (accept_ride (runOps db ops) d' r.id).2 = runOps db ops) := by
  obtain ⟨hu', r', hr', hid', hdr', hs'⟩ := runOps_locks db ops hu hr hs
  refine ⟨⟨r', hr', hid', hdr', hs'⟩, ?_⟩
  intro d'
  have := accept_fails_on_nonwaiting (runOps db ops) hu' hr' hs' d'
  rw [hid'] at this
  exact this

/-- The C2 witness store: ride 1 already Assigned to driver 1. -/
def c2db : DB :=
  { rides := [{ id := 1, client_id := 10, driver_id := some 1, booking_id := none,
                start_zone := 1, drop_zone := 2, is_priority := 0,
                status := RideStatus.assigned, requested_at := 4 }],
    drivers := [{ id := 2, current_zone := 1, status := DriverStatus.available,
                  reserved_booking_id := none, reserved_until := none }],
    bookings := [], booking_rides := [], pool_offers := [], pooled_rides := [] }

/-- C2 witness: after driver 2 races to accept the already-Assigned ride 1,
the ride still references driver 1 and the racing accept was rejected with
an unchanged store. -/
theorem assignment_exclusive_witness :
    (∃ r', r' ∈ (runOps c2db [Op.accept 2 1]).rides ∧ r'.id = 1 ∧
      r'.driver_id = some 1 ∧ r'.status ≠ RideStatus.waiting) ∧
    (accept_ride (runOps c2db [Op.accept 2 1]) 2 1).1 = AcceptResult.rideInvalid := by
  have h := assignment_exclusive c2db [Op.accept 2 1]
    { id := 1, client_id := 10, driver_id := some 1, booking_id := none,
      start_zone := 1, drop_zone := 2, is_priority := 0,
      status := RideStatus.assigned, requested_at := 4 }
    (by unfold RideIdsUnique; decide) (by decide) (by decide)
  exact ⟨h.1, (h.2 2).1⟩

/-! C3 — the Complete transition. -/

theorem driverIdsUnique_updateDriver (db : DB) (did : Nat)
    (f : Driver → Driver) (hf : ∀ d, (f d).id = d.id) (hd : DriverIdsUnique db) :
    DriverIdsUnique (updateDriver db did f) := by
  unfold DriverIdsUnique updateDriver at *
  refine hd.map _ ?_
  intro a b hab
  by_cases ha : a.id == did
  · by_cases hb : b.id == did
    · rw [if_pos ha, if_pos hb, hf a, hf b]
      exact hab
    · rw [if_pos ha, if_neg hb, hf a]
      exact hab
  · by_cases hb : b.id == did
    · rw [if_neg ha, if_pos hb, hf b]
      exact hab
    · rw [if_neg ha, if_neg hb]
      exact hab

theorem find_ride_by_driver {db : DB} (hu : RideIdsUnique db) {r : Ride} {rid did : Nat}
    (hr : r ∈ db.rides) (hidr : r.id = rid) (hdrv : r.driver_id = some did) :
    db.rides.find? (fun x => x.id == rid && x.driver_id == some did) = some r := by
  apply find?_eq_some_of_unique _ _ _ hr
  · simp [hidr, hdrv]
  · intro x hx hpx
    rw [Bool.and_eq_true, beq_iff_eq] at hpx
    exact pairwise_ne_eq hu hx hr (hpx.1.trans hidr.symm)

theorem find_driver_by_id {db : DB} (hd : DriverIdsUnique db) {ddr : Driver} {did : Nat}
    (hddr : ddr ∈ db.drivers) (hdid : ddr.id = did) :
    findDriver db did = some ddr := by
  apply find?_eq_some_of_unique _ _ _ hddr
  · simp [hdid]
  · intro x hx hpx
    rw [beq_iff_eq] at hpx
    exact pairwise_ne_eq hd hx hddr (hpx.trans hdid.symm)

/-- The successful complete path: called by the driver referenced on the
row (any non-Waiting status), it reports ok and commits exactly the
completion writes. -/
theorem complete_ok_lemma (db : DB) (did rid : Nat)
    (hu : RideIdsUnique db) (hd : DriverIdsUnique db)
    {r : Ride} (hr : r ∈ db.rides) (hidr : r.id = rid) (hdrv : r.driver_id = some did)
    {ddr : Driver} (hddr : ddr ∈ db.drivers) (hdid : ddr.id = did) :
    (complete_ride db did rid).1 = CompleteResult.ok ∧
    { r with status := RideStatus.completed } ∈ (complete_ride db did rid).2.rides ∧
    { ddr with status := DriverStatus.available, current_zone := r.drop_zone, reserved_booking_id := none, reserved_until := none } ∈
      (complete_ride db did rid).2.drivers := by
  have hfind := find_ride_by_driver hu hr hidr hdrv
  have hfdr := find_driver_by_id hd hddr hdid
  have hstep : complete_ride db did rid =
      (CompleteResult.ok, completionWrites db did rid r.drop_zone) := by
    unfold complete_ride
    rw [hfind]
    dsimp only
    rw [hfdr]
  rw [hstep]
  refine ⟨rfl, ?_, ?_⟩
  · exact mem_updateRide_hit hr hidr
  · exact mem_updateDriver_hit hddr hdid

/-- The C3 counterexample store: ride 1 is already Completed, its row
references driver 1. -/
def c3db : DB :=
  { rides := [{ id := 1, client_id := 10, driver_id := some 1, booking_id := none,
                start_zone := 1, drop_zone := 9, is_priority := 0,
                status := RideStatus.completed, requested_at := 3 }],
    drivers := [{ id := 1, current_zone := 2, status := DriverStatus.busy,
                  reserved_booking_id := none, reserved_until := none }],
    bookings := [], booking_rides := [], pool_offers := [], pooled_rides := [] }

/-- C3 counterexample: complete_ride succeeds on a ride that is already
Completed — not Assigned — when invoked by the referenced driver: the code
never checks the ride's status, so "Complete may be invoked only ... on an
Assigned ride" fails. -/
theorem complete_on_completed_succeeds :
    (∀ x ∈ c3db.rides, x.status = RideStatus.completed) ∧
    (complete_ride c3db 1 1).1 = CompleteResult.ok := by
  decide

/-- C3 (amended): Complete succeeds exactly for the driver referenced on
the ride row — the ride's status is not checked, so an Assigned or an
already-Completed ride both complete — and on success the ride is
Completed and the driver Available at the ride's drop zone with
reservation metadata cleared; an attempt by a driver the row does not
reference fails and changes nothing; and the Waiting → accept → complete
round trip ends Completed with the driver Available at the drop zone. -/
theorem complete_ride_spec (db : DB) (did rid : Nat)
    (hu : RideIdsUnique db) (hd : DriverIdsUnique db) :
    ((∀ x ∈ db.rides, ¬(x.id = rid ∧ x.driver_id = some did)) →
      (complete_ride db did rid).1 = CompleteResult.notFound ∧
      (complete_ride db did rid).2 = db) ∧
    (∀ r ∈ db.rides, r.id = rid → r.driver_id = some did →
      ∀ ddr ∈ db.drivers, ddr.id = did →
        (complete_ride db did rid).1 = CompleteResult.ok ∧
        { r with status := RideStatus.completed } ∈ (complete_ride db did rid).2.rides ∧
        { ddr with status := DriverStatus.available, current_zone := r.drop_zone, reserved_booking_id := none, reserved_until := none } ∈
          (complete_ride db did rid).2.drivers) ∧
    ((accept_ride db did rid).1 = AcceptResult.ok →
      ∀ ddr ∈ db.drivers, ddr.id = did →
        ∃ r0 ∈ db.rides, r0.id = rid ∧ r0.status = RideStatus.waiting ∧
          (complete_ride (accept_ride db did rid).2 did rid).1 = CompleteResult.ok ∧
          (∃ r' ∈ (complete_ride (accept_ride db did rid).2 did rid).2.rides,
            r'.id = rid ∧ r'.status = RideStatus.completed ∧ r'.driver_id = some did) ∧
          (∃ d' ∈ (complete_ride (accept_ride db did rid).2 did rid).2.drivers,
            d'.id = did ∧ d'.status = DriverStatus.available ∧
            d'.current_zone = r0.drop_zone ∧ d'.reserved_booking_id = none ∧
            d'.reserved_until = none)) := by
  refine ⟨?_, ?_, ?_⟩
  · intro hnone
    have hfind : db.rides.find? (fun x => x.id == rid && x.driver_id == some did) = none := by
      rw [List.find?_eq_none]
      intro x hx hpx
      rw [Bool.and_eq_true, beq_iff_eq, beq_iff_eq] at hpx
      exact hnone x hx hpx
    constructor
    · unfold complete_ride
      rw [hfind]
    · unfold complete_ride
      rw [hfind]
  · intro r hr hidr hdrv ddr hddr hdid
    exact complete_ok_lemma db did rid hu hd hr hidr hdrv hddr hdid
  · intro hok ddr hddr hdid
    rcases accept_ride_split db did rid with ⟨hne, _⟩ | ⟨_, hst, r0, hm0, hid0, hw0⟩
    · exact absurd hok hne
    · refine ⟨r0, hm0, hid0, hw0, ?_⟩
      rw [hst]
      have hu1 : RideIdsUnique (assignRide db did rid) :=
        rideIdsUnique_updateRide db rid _ (fun r => rfl) hu
      have hd1 : DriverIdsUnique (assignRide db did rid) :=
        driverIdsUnique_updateDriver _ did _ (fun d => rfl) hd
      have hr1 : { r0 with driver_id := some did, status := RideStatus.assigned } ∈
          (assignRide db did rid).rides := mem_updateRide_hit hm0 hid0
      have hddr1 : { ddr with status := DriverStatus.busy } ∈
          (assignRide db did rid).drivers := mem_updateDriver_hit hddr hdid
      obtain ⟨hres, hrmem, hdmem⟩ := complete_ok_lemma (assignRide db did rid) did rid
        hu1 hd1 hr1 hid0 rfl hddr1 hdid
      exact ⟨hres, ⟨_, hrmem, hid0, rfl, rfl⟩, ⟨_, hdmem, hdid, rfl, rfl, rfl, rfl⟩⟩

/-- C3 witness: in the C1 store, driver 1 accepts the priority ride and
completes it; the ride ends Completed and the driver Available in zone 2
(the drop zone). -/
theorem complete_ride_spec_witness :
    ∃ r0 ∈ c1db.rides, r0.id = 1 ∧ r0.status = RideStatus.waiting ∧
      (complete_ride (accept_ride c1db 1 1).2 1 1).1 = CompleteResult.ok ∧
      (∃ r' ∈ (complete_ride (accept_ride c1db 1 1).2 1 1).2.rides,
        r'.id = 1 ∧ r'.status = RideStatus.completed ∧ r'.driver_id = some 1) ∧
      (∃ d' ∈ (complete_ride (accept_ride c1db 1 1).2 1 1).2.drivers,
        d'.id = 1 ∧ d'.status = DriverStatus.available ∧
        d'.current_zone = r0.drop_zone ∧ d'.reserved_booking_id = none ∧
        d'.reserved_until = none) := by
  exact (complete_ride_spec c1db 1 1 (by unfold RideIdsUnique; decide)
    (by unfold DriverIdsUnique; decide)).2.2 (by decide) c1driver (by decide) rfl

/-! C7 — the Reservation phase. -/

/-- A pool-mode booking with a due Waiting occurrence and a matching
available driver, for the C7 counterexample. -/
def c7db : DB :=
  { rides := [],
    drivers := [{ id := 1, current_zone := 3, status := DriverStatus.available,
                  reserved_booking_id := none, reserved_until := none }],
    bookings := [{ id := 1, client_id := 5, start_zone := 3, drop_zone := 8,
                   days_of_week := "mon", time_of_day := 0, start_date := 0,
                   end_date := none, ride_mode := "pool",
                   status := BookingStatus.active }],
    booking_rides := [{ id := 1, booking_id := 1, ride_id := none,
                        scheduled_for := 10, status := RideStatus.waiting }],
    pool_offers := [], pooled_rides := [] }

/-- C7 counterexample: the sweep hands a pool-mode occurrence to the
driver-reservation step anyway — the booking's ride_mode is never read —
so the occurrence is driver-assigned instead of being left to the Pool
Aggregator only. -/
theorem sweep_reserves_pool_mode :
    (∀ bk ∈ c7db.bookings, bk.ride_mode = "pool") ∧
    (booking_reservation_sweep 0 c7db).booking_rides.map BookingRide.status =
      [RideStatus.assigned] ∧
    (booking_reservation_sweep 0 c7db).drivers.map Driver.status =
      [DriverStatus.busy] ∧
    (booking_reservation_sweep 0 c7db).drivers.map Driver.reserved_booking_id =
      [some 1] ∧
    (booking_reservation_sweep 0 c7db).pool_offers = [] := by
  decide

/-- C7 (amended): for every candidate occurrence — regardless of the
parent booking's mode, which the sweep never reads — the reservation step
behaves as claimed for solo occurrences: it skips occurrences already
linked or not Waiting; when the booking row is missing, or no Available
driver sits in the booking's start zone free of reservations, the store is
unchanged and the occurrence remains Waiting; when such a driver is found,
the driver gets reservedBookingId, reservedUntil = scheduledFor plus the
buffer and becomes Busy, a pre-Assigned priority Ride linked to the
occurrence is created, and the occurrence becomes Assigned. -/
theorem reservation_step_spec (now : Nat) (db : DB) (br : BookingRide) :
    (br.ride_id ≠ none ∨ br.status ≠ RideStatus.waiting → reserveOne now db br = db) ∧
    (br.ride_id = none → br.status = RideStatus.waiting →
      db.bookings.find? (fun bk => bk.id == br.booking_id) = none →
      reserveOne now db br = db) ∧
    (∀ bk, br.ride_id = none → br.status = RideStatus.waiting →
      db.bookings.find? (fun bk2 => bk2.id == br.booking_id) = some bk →
      db.drivers.find? (reservableDriver bk.start_zone) = none →
      reserveOne now db br = db) ∧
    (∀ bk dr, br.ride_id = none → br.status = RideStatus.waiting →
      br ∈ db.booking_rides →
      db.bookings.find? (fun bk2 => bk2.id == br.booking_id) = some bk →
      db.drivers.find? (reservableDriver bk.start_zone) = some dr →
      { dr with reserved_booking_id := some bk.id, reserved_until := some (br.scheduled_for + DRIVER_RESERVATION_BUFFER_MINUTES), status := DriverStatus.busy } ∈ (reserveOne now db br).drivers ∧
      (∃ ride ∈ (reserveOne now db br).rides, ride.id = nextRideId db ∧
        ride.driver_id = some dr.id ∧ ride.booking_id = some bk.id ∧
        ride.client_id = bk.client_id ∧ ride.start_zone = bk.start_zone ∧
        ride.drop_zone = bk.drop_zone ∧ ride.is_priority = 1 ∧
        ride.status = RideStatus.assigned) ∧
      { br with ride_id := some (nextRideId db), status := RideStatus.assigned } ∈ (reserveOne now db br).booking_rides) := by
  refine ⟨?_, ?_, ?_, ?_⟩
  · intro h
    unfold reserveOne
    rw [if_pos h]
  · intro h1 h2 hbk
    unfold reserveOne
    rw [if_neg (fun h => h.elim (fun hne => hne h1) (fun hne => hne h2)), hbk]
  · intro bk h1 h2 hbk hdr
    unfold reserveOne
    rw [if_neg (fun h => h.elim (fun hne => hne h1) (fun hne => hne h2)), hbk]
    dsimp only
    rw [hdr]
  · intro bk dr h1 h2 hbr hbk hdr
    have hstep : reserveOne now db br = reserveWrites now db br bk dr := by
      unfold reserveOne
      rw [if_neg (fun h => h.elim (fun hne => hne h1) (fun hne => hne h2)), hbk]
      dsimp only
      rw [hdr]
    rw [hstep]
    have hdrm : dr ∈ db.drivers := List.mem_of_find?_eq_some hdr
    refine ⟨?_, ?_, ?_⟩
    · exact mem_updateDriver_hit hdrm rfl
    · refine ⟨{ id := nextRideId db, client_id := bk.client_id, driver_id := some dr.id, booking_id := some bk.id, start_zone := bk.start_zone, drop_zone := bk.drop_zone, is_priority := 1, status := RideStatus.assigned, requested_at := now }, ?_, rfl, rfl, rfl, rfl, rfl, rfl, rfl, rfl⟩
      show _ ∈ _ ++ [_]
      exact List.mem_append_right _ (List.mem_singleton.mpr rfl)
    · have hm := List.mem_map_of_mem (fun b => if b.id == br.id then { b with ride_id := some (nextRideId db), status := RideStatus.assigned } else b) hbr
      simp only [beq_self_eq_true, if_true] at hm
      exact hm

/-- C7 witness: the amended statement instantiated on the concrete
pool-mode store — the driver is reserved until 25 (= 10 + 15 buffer),
the pre-assigned ride is created and the occurrence assigned. -/
theorem reservation_step_spec_witness :
    { id := 1, current_zone := 3, status := DriverStatus.busy, reserved_booking_id := some 1, reserved_until := some 25 } ∈
      (reserveOne 0 c7db { id := 1, booking_id := 1, ride_id := none, scheduled_for := 10, status := RideStatus.waiting }).drivers ∧
    { id := 1, booking_id := 1, ride_id := some 1, scheduled_for := 10, status := RideStatus.assigned } ∈
      (reserveOne 0 c7db { id := 1, booking_id := 1, ride_id := none, scheduled_for := 10, status := RideStatus.waiting }).booking_rides := by
  obtain ⟨hdrv, _, hbr⟩ := (reservation_step_spec 0 c7db
    { id := 1, booking_id := 1, ride_id := none, scheduled_for := 10, status := RideStatus.waiting }).2.2.2
    { id := 1, client_id := 5, start_zone := 3, drop_zone := 8, days_of_week := "mon", time_of_day := 0, start_date := 0, end_date := none, ride_mode := "pool", status := BookingStatus.active }
    { id := 1, current_zone := 3, status := DriverStatus.available, reserved_booking_id := none, reserved_until := none }
    rfl rfl (by decide) (by decide) (by decide)
  exact ⟨hdrv, hbr⟩

/-! C6 — idempotent pool-offer spawning. -/

/-- The Open offers carrying exactly the key `k`. -/
def openOffersWithKey (os : List PoolOffer) (k : PoolKey) : List PoolOffer :=
  os.filter (offerMatches k)

theorem offerMatches_iff {k : PoolKey} {o : PoolOffer} :
    offerMatches k o = true ↔
      o.scheduled_for = k.1 ∧ o.start_zone = k.2.1 ∧ o.drop_zone = k.2.2 ∧
        o.status = PoolOfferStatus.open_ := by
  unfold offerMatches
  simp [Bool.and_eq_true, and_assoc]

theorem find?_isSome_iff_filter_ne {α} (p : α → Bool) (l : List α) :
    (l.find? p).isSome = true ↔ l.filter p ≠ [] := by
  induction l with
  | nil => simp [List.find?]
  | cons h t ih =>
    by_cases ph : p h = true
    · rw [List.find?_cons_of_pos _ ph, List.filter_cons_of_pos ph]
      simp
    · rw [List.find?_cons_of_neg _ ph, List.filter_cons_of_neg ph]
      exact ih

theorem firstOccur_nodup_aux (step : List PoolKey → PoolKey → List PoolKey)
    (hstep : step = fun acc k => if k ∈ acc then acc else acc ++ [k]) :
    ∀ (l : List PoolKey) (acc : List PoolKey), acc.Nodup → (l.foldl step acc).Nodup := by
  intro l
  induction l with
  | nil => intro acc h; exact h
  | cons k t ih =>
    intro acc h
    rw [List.foldl_cons]
    apply ih
    rw [hstep]
    show (if k ∈ acc then acc else acc ++ [k]).Nodup
    by_cases hk : k ∈ acc
    · rw [if_pos hk]
      exact h
    · rw [if_neg hk]
      rw [List.nodup_append]
      refine ⟨h, List.nodup_singleton k, ?_⟩
      intro a ha hb
      rw [List.mem_singleton] at hb
      subst hb
      exact hk ha

theorem firstOccur_nodup (l : List PoolKey) : (firstOccur l).Nodup :=
  firstOccur_nodup_aux _ rfl l [] List.nodup_nil

/-- Processing one key group only touches that key's Open offers. -/
theorem offerStep_other (bookings : List Booking) (cands : List BookingRide)
    (offers : List PoolOffer) (k k' : PoolKey) (hne : k' ≠ k) :
    openOffersWithKey (offerStepKey bookings cands offers k) k' =
      openOffersWithKey offers k' := by
  unfold offerStepKey
  by_cases hlen : MIN_POOL_CANDIDATES ≤ (groupMembers bookings cands k).length
  · rw [if_pos hlen]
    by_cases hex : (offers.find? (offerMatches k)).isSome = true
    · rw [if_pos hex]
    · rw [if_neg hex]
      unfold openOffersWithKey
      rw [List.filter_append]
      have hmf : offerMatches k' { id := nextOfferId offers, booking_ride_ids := (groupMembers bookings cands k).map BookingRide.id, start_zone := k.2.1, drop_zone := k.2.2, scheduled_for := k.1, status := PoolOfferStatus.open_ } = false := by
        rw [Bool.eq_false_iff]
        intro hmt
        obtain ⟨e1, e2, e3, _⟩ := offerMatches_iff.mp hmt
        apply hne
        obtain ⟨a, b, c⟩ := k
        obtain ⟨a', b', c'⟩ := k'
        simp only at e1 e2 e3
        rw [Prod.mk.injEq, Prod.mk.injEq]
        exact ⟨e1.symm, e2.symm, e3.symm⟩
      rw [List.filter_cons_of_neg (by simp [hmf]), List.filter_nil, List.append_nil]
  · rw [if_neg hlen]

/-- Processing a key group whose threshold is not met, or whose key
already has an Open offer, changes nothing. -/
theorem offerStep_skip (bookings : List Booking) (cands : List BookingRide)
    (offers : List PoolOffer) (k : PoolKey)
    (h : (groupMembers bookings cands k).length < MIN_POOL_CANDIDATES ∨
      openOffersWithKey offers k ≠ []) :
    offerStepKey bookings cands offers k = offers := by
  unfold offerStepKey
  by_cases hlen : MIN_POOL_CANDIDATES ≤ (groupMembers bookings cands k).length
  · rw [if_pos hlen]
    rcases h with h | h
    · exact absurd hlen (by omega)
    · rw [if_pos ((find?_isSome_iff_filter_ne _ _).mpr h)]
  · rw [if_neg hlen]

/-- Processing a qualifying key group spawns exactly one Open offer
referencing the group's occurrence ids. -/
theorem offerStep_spawn (bookings : List Booking) (cands : List BookingRide)
    (offers : List PoolOffer) (k : PoolKey)
    (hlen : MIN_POOL_CANDIDATES ≤ (groupMembers bookings cands k).length)
    (hex : openOffersWithKey offers k = []) :
    openOffersWithKey (offerStepKey bookings cands offers k) k =
      [{ id := nextOfferId offers, booking_ride_ids := (groupMembers bookings cands k).map BookingRide.id, start_zone := k.2.1, drop_zone := k.2.2, scheduled_for := k.1, status := PoolOfferStatus.open_ }] := by
  unfold offerStepKey
  rw [if_pos hlen]
  have hnone : (offers.find? (offerMatches k)).isSome = false := by
    rw [Bool.eq_false_iff]
    intro hs
    exact (find?_isSome_iff_filter_ne _ _).mp hs hex
  rw [if_neg (by rw [hnone]; exact fun h => Bool.noConfusion h)]
  unfold openOffersWithKey
  rw [List.filter_append]
  unfold openOffersWithKey at hex
  rw [hex, List.nil_append]
  rw [List.filter_cons_of_pos, List.filter_nil]
  exact offerMatches_iff.mpr ⟨rfl, rfl, rfl, rfl⟩

theorem fold_offerStep (bookings : List Booking) (cands : List BookingRide) :
    ∀ (ks : List PoolKey) (offers : List PoolOffer) (k : PoolKey), ks.Nodup →
      (k ∉ ks →
        openOffersWithKey (ks.foldl (offerStepKey bookings cands) offers) k =
          openOffersWithKey offers k) ∧
      (k ∈ ks →
        (MIN_POOL_CANDIDATES ≤ (groupMembers bookings cands k).length →
          openOffersWithKey offers k = [] →
          ∃ o, openOffersWithKey (ks.foldl (offerStepKey bookings cands) offers) k = [o] ∧
            o.booking_ride_ids = (groupMembers bookings cands k).map BookingRide.id ∧
            o.status = PoolOfferStatus.open_ ∧ o.scheduled_for = k.1 ∧
            o.start_zone = k.2.1 ∧ o.drop_zone = k.2.2) ∧
        ((groupMembers bookings cands k).length < MIN_POOL_CANDIDATES ∨
            openOffersWithKey offers k ≠ [] →
          openOffersWithKey (ks.foldl (offerStepKey bookings cands) offers) k =
            openOffersWithKey offers k)) := by
  intro ks
  induction ks with
  | nil =>
    intro offers k _
    exact ⟨fun _ => rfl, fun hk => absurd hk (List.not_mem_nil k)⟩
  | cons k0 t ih =>
    intro offers k hnd
    have hk0t : k0 ∉ t := (List.nodup_cons.mp hnd).1
    have hndt : t.Nodup := (List.nodup_cons.mp hnd).2
    rw [List.foldl_cons]
    constructor
    · intro hk
      have hkne : k ≠ k0 := fun e => hk (e ▸ List.mem_cons_self k0 t)
      have hkt : k ∉ t := fun h => hk (List.mem_cons_of_mem k0 h)
      rw [(ih (offerStepKey bookings cands offers k0) k hndt).1 hkt]
      exact offerStep_other bookings cands offers k0 k hkne
    · intro hk
      rcases List.mem_cons.mp hk with rfl | hkt
      · constructor
        · intro hlen hex
          have h1 := offerStep_spawn bookings cands offers k hlen hex
          rw [(ih (offerStepKey bookings cands offers k) k hndt).1 hk0t, h1]
          exact ⟨_, rfl, rfl, rfl, rfl, rfl, rfl⟩
        · intro hcond
          rw [(ih (offerStepKey bookings cands offers k) k hndt).1 hk0t,
            offerStep_skip bookings cands offers k hcond]
      · have hkne : k ≠ k0 := fun e => hk0t (e ▸ hkt)
        have hother := offerStep_other bookings cands offers k0 k hkne
        have iht := ih (offerStepKey bookings cands offers k0) k hndt
        constructor
        · intro hlen hex
          exact (iht.2 hkt).1 hlen (hother.trans hex)
        · intro hcond
          have hcond' : (groupMembers bookings cands k).length < MIN_POOL_CANDIDATES ∨
              openOffersWithKey (offerStepKey bookings cands offers k0) k ≠ [] := by
            rcases hcond with h | h
            · exact Or.inl h
            · exact Or.inr (by rw [hother]; exact h)
          rw [(iht.2 hkt).2 hcond', hother]

/-- The three same-key bookings of the C6 scenario (09:00 = minute 540,
zone 1 to zone 2). -/
def c6bookings : List Booking :=
  [{ id := 1, client_id := 11, start_zone := 1, drop_zone := 2, days_of_week := "mon", time_of_day := 540, start_date := 0, end_date := none, ride_mode := "pool", status := BookingStatus.active },
   { id := 2, client_id := 12, start_zone := 1, drop_zone := 2, days_of_week := "mon", time_of_day := 540, start_date := 0, end_date := none, ride_mode := "pool", status := BookingStatus.active },
   { id := 3, client_id := 13, start_zone := 1, drop_zone := 2, days_of_week := "mon", time_of_day := 540, start_date := 0, end_date := none, ride_mode := "pool", status := BookingStatus.active }]

/-- Two occurrences sharing (scheduledFor = 540, Z1, Z2). -/
def c6cands2 : List BookingRide :=
  [{ id := 1, booking_id := 1, ride_id := none, scheduled_for := 540, status := RideStatus.waiting },
   { id := 2, booking_id := 2, ride_id := none, scheduled_for := 540, status := RideStatus.waiting }]

/-- The same two occurrences plus a later matching third. -/
def c6cands3 : List BookingRide :=
  c6cands2 ++
    [{ id := 3, booking_id := 3, ride_id := none, scheduled_for := 540, status := RideStatus.waiting }]

/-- C6: (general part) one run of the pool sweep spawns, for a key whose
group reaches the threshold of 2 and which has no Open offer yet, exactly
one Open offer referencing the group's occurrence id set; a group below
the threshold spawns nothing; a key that already carries an Open offer
spawns nothing; keys outside the candidate set are untouched.
(scenario part) two occurrences sharing (09:00, Z1, Z2) produce exactly
one offer referencing both, and a later sweep with a third matching
occurrence while that offer is Open spawns no second offer. -/
theorem pool_offer_spawn (bookings : List Booking) (offers : List PoolOffer)
    (cands : List BookingRide) (k : PoolKey) :
    (k ∈ candidateKeys bookings cands →
      MIN_POOL_CANDIDATES ≤ (groupMembers bookings cands k).length →
      openOffersWithKey offers k = [] →
      ∃ o, openOffersWithKey (create_pool_offers_from_candidates bookings offers cands) k = [o] ∧
        o.booking_ride_ids = (groupMembers bookings cands k).map BookingRide.id ∧
        o.status = PoolOfferStatus.open_ ∧ o.scheduled_for = k.1 ∧
        o.start_zone = k.2.1 ∧ o.drop_zone = k.2.2) ∧
    ((groupMembers bookings cands k).length < MIN_POOL_CANDIDATES →
      openOffersWithKey (create_pool_offers_from_candidates bookings offers cands) k =
        openOffersWithKey offers k) ∧
    (openOffersWithKey offers k ≠ [] →
      openOffersWithKey (create_pool_offers_from_candidates bookings offers cands) k =
        openOffersWithKey offers k) ∧
    (k ∉ candidateKeys bookings cands →
      openOffersWithKey (create_pool_offers_from_candidates bookings offers cands) k =
        openOffersWithKey offers k) ∧
    ((create_pool_offers_from_candidates c6bookings [] c6cands2).map
        (fun o => (o.booking_ride_ids, o.status, o.scheduled_for, o.start_zone, o.drop_zone)) =
      [([1, 2], PoolOfferStatus.open_, 540, 1, 2)] ∧
     create_pool_offers_from_candidates c6bookings
        (create_pool_offers_from_candidates c6bookings [] c6cands2) c6cands3 =
      create_pool_offers_from_candidates c6bookings [] c6cands2) := by
  have hnd := firstOccur_nodup (cands.filterMap (keyOf bookings))
  have hfold := fold_offerStep bookings cands (candidateKeys bookings cands) offers k hnd
  refine ⟨?_, ?_, ?_, ?_, by decide⟩
  · intro hk hlen hex
    exact (hfold.2 hk).1 hlen hex
  · intro hlen
    by_cases hk : k ∈ candidateKeys bookings cands
    · exact (hfold.2 hk).2 (Or.inl hlen)
    · exact hfold.1 hk
  · intro hex
    by_cases hk : k ∈ candidateKeys bookings cands
    · exact (hfold.2 hk).2 (Or.inr hex)
    · exact hfold.1 hk
  · exact hfold.1

/-- C6 witness: the general statement instantiated on the scenario store —
the key (540, Z1, Z2) with its two-occurrence group and no pre-existing
offer yields exactly one Open offer referencing occurrences 1 and 2. -/
theorem pool_offer_spawn_witness :
    ∃ o, openOffersWithKey (create_pool_offers_from_candidates c6bookings [] c6cands2)
        (540, 1, 2) = [o] ∧
      o.booking_ride_ids = (groupMembers c6bookings c6cands2 (540, 1, 2)).map BookingRide.id ∧
      o.status = PoolOfferStatus.open_ ∧ o.scheduled_for = (540, 1, 2).1 ∧
      o.start_zone = (540, 1, 2).2.1 ∧ o.drop_zone = (540, 1, 2).2.2 :=
  (pool_offer_spawn c6bookings [] c6cands2 (540, 1, 2)).1 (by decide) (by decide) rfl

/-! C10 — filling a pool offer in one accept. -/

/-- C10: on an Open offer, when the still-Waiting referenced occurrences
(with existing bookings) plus the accepting client — counted only if not
already among the occurrence owners — number at least 2, the single accept
fills the offer: exactly one priority PooledRide is appended carrying all
those clients' ids, the referenced Waiting occurrences become Assigned and
the offer becomes Filled; below the threshold the call fails and the store
is unchanged. -/
theorem accept_pool_offer_fills (db : DB) (offer_id client_id : Nat) (offer : PoolOffer)
    (hfind : db.pool_offers.find?
      (fun o => o.id == offer_id && decide (o.status = PoolOfferStatus.open_)) = some offer) :
    (MIN_POOL_CANDIDATES ≤ (poolCandidates db offer client_id).length →
      ∃ pr, (accept_pool_offer db offer_id client_id).1 = PoolAcceptResult.ok pr ∧
        pr.client_ids = (poolCandidates db offer client_id).map Prod.fst ∧
        pr.is_priority = 1 ∧ pr.status = RideStatus.waiting ∧
        pr.start_zone = offer.start_zone ∧ pr.drop_zone = offer.drop_zone ∧
        (accept_pool_offer db offer_id client_id).2.pooled_rides = db.pooled_rides ++ [pr] ∧
        (∀ o' ∈ (accept_pool_offer db offer_id client_id).2.pool_offers,
          o'.id = offer.id → o'.status = PoolOfferStatus.filled) ∧
        (∀ br ∈ db.booking_rides,
          some br.id ∈ (poolCandidates db offer client_id).map Prod.snd →
          { br with status := RideStatus.assigned } ∈
            (accept_pool_offer db offer_id client_id).2.booking_rides)) ∧
    ((poolCandidates db offer client_id).length < MIN_POOL_CANDIDATES →
      (accept_pool_offer db offer_id client_id).1 = PoolAcceptResult.notEnough ∧
      (accept_pool_offer db offer_id client_id).2 = db) := by
  constructor
  · intro hlen
    have hstep : accept_pool_offer db offer_id client_id =
        (PoolAcceptResult.ok (pooledFromOffer db offer client_id),
          fillWrites db offer client_id) := by
      unfold accept_pool_offer
      rw [hfind]
      dsimp only
      rw [if_pos hlen]
    rw [hstep]
    refine ⟨pooledFromOffer db offer client_id, rfl, rfl, rfl, rfl, rfl, rfl, rfl, ?_, ?_⟩
    · intro o' hmem hid
      obtain ⟨o, ho, rfl⟩ := List.mem_map.mp hmem
      by_cases hoe : (o.id == offer.id) = true
      · rw [if_pos hoe]
      · rw [if_neg hoe] at hid ⊢
        rw [beq_iff_eq] at hoe
        exact absurd hid hoe
    · intro br hbr hsnd
      have hin : br.id ∈ (poolCandidates db offer client_id).filterMap Prod.snd := by
        obtain ⟨c, hc, hce⟩ := List.mem_map.mp hsnd
        exact List.mem_filterMap.mpr ⟨c, hc, hce⟩
      have hm := List.mem_map_of_mem (fun b =>
        if b.id ∈ (poolCandidates db offer client_id).filterMap Prod.snd then
          { b with status := RideStatus.assigned } else b) hbr
      simp only [hin, if_true] at hm
      exact hm
  · intro hlen
    have hstep : accept_pool_offer db offer_id client_id = (PoolAcceptResult.notEnough, db) := by
      unfold accept_pool_offer
      rw [hfind]
      dsimp only
      rw [if_neg (by omega)]
    rw [hstep]
    exact ⟨rfl, rfl⟩

/-- The Open offer of the C10 witness, referencing occurrences 1 and 2. -/
def c10offer : PoolOffer :=
  { id := 1, booking_ride_ids := [1, 2], start_zone := 1, drop_zone := 2,
    scheduled_for := 540, status := PoolOfferStatus.open_ }

/-- The C10 witness store: two Waiting occurrences owned by clients 11
and 12, one Open offer over them. -/
def c10db : DB :=
  { rides := [], drivers := [], bookings := c6bookings, booking_rides := c6cands2,
    pool_offers := [c10offer], pooled_rides := [] }

/-- C10 witness: client 99 accepts the offer; the two occurrence owners
count as participants without having accepted, so the offer fills with
clients 11, 12 and 99 in one PooledRide. -/
theorem accept_pool_offer_fills_witness :
    ∃ pr, (accept_pool_offer c10db 1 99).1 = PoolAcceptResult.ok pr ∧
      pr.client_ids = (poolCandidates c10db c10offer 99).map Prod.fst ∧
      pr.is_priority = 1 ∧ pr.status = RideStatus.waiting ∧
      pr.start_zone = c10offer.start_zone ∧ pr.drop_zone = c10offer.drop_zone ∧
      (accept_pool_offer c10db 1 99).2.pooled_rides = c10db.pooled_rides ++ [pr] ∧
      (∀ o' ∈ (accept_pool_offer c10db 1 99).2.pool_offers,
        o'.id = c10offer.id → o'.status = PoolOfferStatus.filled) ∧
      (∀ br ∈ c10db.booking_rides,
        some br.id ∈ (poolCandidates c10db c10offer 99).map Prod.snd →
        { br with status := RideStatus.assigned } ∈
          (accept_pool_offer c10db 1 99).2.booking_rides) :=
  (accept_pool_offer_fills c10db 1 99 c10offer (by decide)).1 (by decide)

end Rider
